import Mathlib

/-!
Verification of the llm-crawler backend against its specification.

The Python source under `backend/` is shallowly embedded: pydantic models
become structures, pure methods become Lean functions, and the Redis store,
the work queue, the HTTP fetcher and the inference provider become explicit
state / oracle parameters.  Python library calls used by the source
(`urllib.parse`, BeautifulSoup tree operations, `set` union, `str` methods)
are modelled by Lean functions whose doc comments name the library behaviour
they reproduce.
-/

namespace Crawler

/-! ## Data model (`backend/data_models.py`) -/

/-- `ParserParameters` (data_models.py): four selector-string lists
`root`, `keep`, `drop`, `unwrap`. -/
structure ParserParameters where
  root : List String
  keep : List String
  drop : List String
  unwrap : List String
  deriving Repr, DecidableEq

/-- Model of Python `list(set(xs) | set(ys))`: a list whose underlying set of
elements is the union of the two operands' element sets.  Python leaves the
order of `list(set(..))` unspecified; we fix the concrete representative
`(xs ++ ys).dedup`, which has exactly that element set. -/
def listSetUnion (xs ys : List String) : List String :=
  (xs ++ ys).dedup

/-- `ParserParameters.__add__` (data_models.py lines 158-162): field-wise
`list(set(self.f) | set(other.f))`. -/
def ParserParameters.add (a b : ParserParameters) : ParserParameters :=
  { root := listSetUnion a.root b.root
    keep := listSetUnion a.keep b.keep
    drop := listSetUnion a.drop b.drop
    unwrap := listSetUnion a.unwrap b.unwrap }

instance : Add ParserParameters := ⟨ParserParameters.add⟩

/-- Equality of `ParserParameters` "where equality of the four selector
fields is set equality": each field has the same set of elements. -/
def ParserParameters.setEq (a b : ParserParameters) : Prop :=
  a.root.toFinset = b.root.toFinset ∧
  a.keep.toFinset = b.keep.toFinset ∧
  a.drop.toFinset = b.drop.toFinset ∧
  a.unwrap.toFinset = b.unwrap.toFinset

instance (a b : ParserParameters) : Decidable (a.setEq b) := by
  unfold ParserParameters.setEq; infer_instance

/-- `ParserConfig` (data_models.py): parameters plus the prefix they are
bound to (the derived `id` always equals `prefix_name`, so it is omitted). -/
structure ParserConfig where
  parameters : ParserParameters
  prefix_name : String
  deriving Repr, DecidableEq

/-- `ParserConfig.__add__` (data_models.py lines 175-178): merge the
parameters, keep the left operand's `prefix_name`. -/
def ParserConfig.add (a b : ParserConfig) : ParserConfig :=
  { parameters := a.parameters + b.parameters
    prefix_name := a.prefix_name }

instance : Add ParserConfig := ⟨ParserConfig.add⟩

/-- Config equality with set equality on the four selector fields. -/
def ParserConfig.setEq (a b : ParserConfig) : Prop :=
  a.parameters.setEq b.parameters ∧ a.prefix_name = b.prefix_name

instance (a b : ParserConfig) : Decidable (a.setEq b) := by
  unfold ParserConfig.setEq; infer_instance

/-! ## Object store singletons (`backend/db.py`) -/

/-- `set_system_state` (db.py lines 70-74): accept exactly the strings
`"PAUSE"` and `"RUNNING"`; any other value raises `ValueError`.  The raised
message is returned in the error branch (the quote marks the original
message puts around the two state names are omitted here); success returns
the new stored value. -/
def set_system_state (state : String) : Except String String :=
  if state = "PAUSE" ∨ state = "RUNNING" then
    Except.ok state
  else
    Except.error "State must be either PAUSE or RUNNING"

/-- `get_system_state` (db.py lines 65-68): the stored value if the key is
set, else the default `"RUNNING"`. -/
def get_system_state (stored : Option String) : String :=
  stored.getD "RUNNING"

/-! ## DOM model for the extraction engine (`backend/parser.py`,
`backend/clean_html.py`)

BeautifulSoup trees are modelled as `Node`: an element with a tag name,
attributes and children, or a text node (`NavigableString`).  A document is
the list of top-level nodes of the soup. -/

inductive Node where
  | text (s : String)
  | elem (tag : String) (attrs : List (String × String)) (children : List Node)
  deriving Repr

/-- Characters removed by Python `str.strip()`: space, tab, newline,
carriage return, vertical tab, form feed. -/
def pySpace (c : Char) : Bool :=
  c.toNat = 32 || c.toNat = 9 || c.toNat = 10 || c.toNat = 13 ||
    c.toNat = 11 || c.toNat = 12

/-- Python `str.strip()` on a character list. -/
def pyStripChars (cs : List Char) : List Char :=
  ((cs.dropWhile pySpace).reverse.dropWhile pySpace).reverse

/-- Python `str.strip()`. -/
def pyStrip (s : String) : String :=
  ⟨pyStripChars s.data⟩

/-- Python substring containment `pat in s` on character lists. -/
def listContainsSub (pat : List Char) : List Char → Bool
  | [] => pat.isEmpty
  | c :: cs => pat.isPrefixOf (c :: cs) || listContainsSub pat cs

/-- Python substring containment `pat in s`. -/
def strContainsSub (s pat : String) : Bool :=
  listContainsSub pat.data s.data

/-- Model of soupsieve selector matching for the selector forms the repo
exercises in configs: a CSS type selector (bare tag name) matches exactly
the elements with that tag name. -/
def selectorMatchesTag (sel tag : String) : Bool :=
  sel = tag

/-- An element's tag matches one of the selectors. -/
def matchesAny (sels : List String) (tag : String) : Bool :=
  sels.any (selectorMatchesTag · tag)

mutual
/-- `soup.select(sel)` for type selectors: all matching elements of the
subtree rooted at `n`, in document order (`n` included). -/
def selectNode (sels : List String) : Node → List Node
  | .text _ => []
  | .elem tag attrs cs =>
      (if matchesAny sels tag then [Node.elem tag attrs cs] else []) ++
        selectNodes sels cs

/-- `soup.select(sel)` over a node list. -/
def selectNodes (sels : List String) : List Node → List Node
  | [] => []
  | n :: ns => selectNode sels n ++ selectNodes sels ns
end

/-- Tags never decomposed by the keep-set pruning loops
(parser.py lines 44 and 85). -/
def protectedTag (tag : String) : Bool :=
  tag = "html" || tag = "head" || tag = "body"

mutual
/-- One element of the keep-set pruning of parser.py (lines 43-47 and
84-88): an element survives iff it is `html`/`head`/`body`, or lies under a
selector match (`underMatch`), or itself matches, or contains a match; the
children of survivors are pruned recursively.  Text nodes are never
decomposed directly (the loop iterates over `find_all(True)`, i.e. tags
only) and vanish only with a decomposed ancestor. -/
def pruneNode (sels : List String) (underMatch : Bool) : Node → List Node
  | .text s => [Node.text s]
  | .elem tag attrs cs =>
      let m := matchesAny sels tag
      if protectedTag tag || underMatch || m || !(selectNodes sels cs).isEmpty then
        [Node.elem tag attrs (pruneNodes sels (underMatch || m) cs)]
      else
        []

/-- Keep-set pruning over a node list. -/
def pruneNodes (sels : List String) (underMatch : Bool) : List Node → List Node
  | [] => []
  | n :: ns => pruneNode sels underMatch n ++ pruneNodes sels underMatch ns
end

/-- Root restriction (parser.py lines 27-47): when the `root` selector list
is non-empty, select all matching elements; if any match (`if roots:`),
keep only matches, their descendants and their ancestors, never deleting
`html`/`head`/`body`; when nothing matches, the document is untouched. -/
def rootStep (rootSels : List String) (doc : List Node) : List Node :=
  if rootSels.isEmpty then doc
  else if (selectNodes rootSels doc).isEmpty then doc
  else pruneNodes rootSels false doc

/-- Keep restriction (parser.py lines 62-88): same keep-set pruning driven
by the `keep` selectors, with the same `if keep_nodes:` guard. -/
def keepStep (keepSels : List String) (doc : List Node) : List Node :=
  if keepSels.isEmpty then doc
  else if (selectNodes keepSels doc).isEmpty then doc
  else pruneNodes keepSels false doc

mutual
/-- `el.decompose()` for every element matching `sel`
(parser.py lines 50-53, one selector). -/
def dropSelNode (sel : String) : Node → List Node
  | .text s => [Node.text s]
  | .elem tag attrs cs =>
      if selectorMatchesTag sel tag then []
      else [Node.elem tag attrs (dropSelNodes sel cs)]

/-- Drop over a node list. -/
def dropSelNodes (sel : String) : List Node → List Node
  | [] => []
  | n :: ns => dropSelNode sel n ++ dropSelNodes sel ns
end

/-- Drop step (parser.py lines 50-53): each `drop` selector in turn removes
every matching element and its subtree. -/
def dropStep (dropSels : List String) (doc : List Node) : List Node :=
  dropSels.foldl (fun d sel => dropSelNodes sel d) doc

mutual
/-- `el.unwrap()` for every element matching `sel`
(parser.py lines 56-59, one selector): the element is replaced in place by
its (recursively processed) children. -/
def unwrapSelNode (sel : String) : Node → List Node
  | .text s => [Node.text s]
  | .elem tag attrs cs =>
      let cs2 := unwrapSelNodes sel cs
      if selectorMatchesTag sel tag then cs2
      else [Node.elem tag attrs cs2]

/-- Unwrap over a node list. -/
def unwrapSelNodes (sel : String) : List Node → List Node
  | [] => []
  | n :: ns => unwrapSelNode sel n ++ unwrapSelNodes sel ns
end

/-- Unwrap step (parser.py lines 56-59). -/
def unwrapStep (unwrapSels : List String) (doc : List Node) : List Node :=
  unwrapSels.foldl (fun d sel => unwrapSelNodes sel d) doc

/-- `Parser._trim_soup` (parser.py lines 26-90): root restriction, then
drop, then unwrap, then keep restriction. -/
def trimSoup (p : ParserParameters) (doc : List Node) : List Node :=
  keepStep p.keep (unwrapStep p.unwrap (dropStep p.drop (rootStep p.root doc)))

/-! ## `clean_html` (clean_html.py) -/

/-- Tags removed as non-content by clean_html.py line 14. -/
def nonContentTag (tag : String) : Bool :=
  tag = "style" || tag = "svg" || tag = "canvas" || tag = "template" ||
    tag = "head" || tag = "meta" || tag = "noscript"

/-- Hidden-element test of clean_html.py line 18: a `hidden` attribute, an
`aria-hidden` attribute equal to `true`, or a `style` attribute containing
`display:none` or `visibility:hidden`. -/
def isHiddenAttrs (attrs : List (String × String)) : Bool :=
  attrs.any (fun kv => kv.1 = "hidden") ||
  (match attrs.lookup "aria-hidden" with
    | some v => v = "true"
    | none => false) ||
  (match attrs.lookup "style" with
    | some v => strContainsSub v "display:none" || strContainsSub v "visibility:hidden"
    | none => false)

mutual
/-- `clean_html` tree pass: decompose non-content tags, decompose hidden
elements, replace `<br>` with a newline text node
(clean_html.py lines 14-23). -/
def cleanNode : Node → List Node
  | .text s => [Node.text s]
  | .elem tag attrs cs =>
      if nonContentTag tag then []
      else if isHiddenAttrs attrs then []
      else if tag = "br" then [Node.text "\n"]
      else [Node.elem tag attrs (cleanNodes cs)]

/-- `clean_html` over a node list. -/
def cleanNodes : List Node → List Node
  | [] => []
  | n :: ns => cleanNode n ++ cleanNodes ns
end

/-! ## `Parser._soup_to_text` (parser.py lines 92-113) -/

/-- The block-level tags of parser.py lines 96-100. -/
def blockishTag (tag : String) : Bool :=
  ["p", "div", "section", "article", "header", "footer", "aside", "main",
   "nav", "h1", "h2", "h3", "h4", "h5", "h6", "li", "ul", "ol", "table",
   "thead", "tbody", "tr", "td", "th", "figure", "figcaption", "pre"].contains tag

mutual
/-- parser.py lines 101-104: every block-level element gets a `"\n"` text
node inserted before it and appended as its last child. -/
def blockBreakNode : Node → List Node
  | .text s => [Node.text s]
  | .elem tag attrs cs =>
      let cs2 := blockBreakNodes cs
      if blockishTag tag then
        [Node.text "\n", Node.elem tag attrs (cs2 ++ [Node.text "\n"])]
      else
        [Node.elem tag attrs cs2]

/-- Block-break insertion over a node list. -/
def blockBreakNodes : List Node → List Node
  | [] => []
  | n :: ns => blockBreakNode n ++ blockBreakNodes ns
end

mutual
/-- The text-node strings of a subtree in document order. -/
def textStringsNode : Node → List String
  | .text s => [s]
  | .elem _ _ cs => textStringsNodes cs

/-- Text-node strings of a node list. -/
def textStringsNodes : List Node → List String
  | [] => []
  | n :: ns => textStringsNode n ++ textStringsNodes ns
end

/-- `soup.get_text(separator=" ", strip=True)`: each text string is
stripped, empty results are skipped, and the survivors are joined with a
single space. -/
def getTextStripJoin (doc : List Node) : String :=
  String.intercalate " " (((textStringsNodes doc).map pyStrip).filter (· ≠ ""))

/-- `re.sub(r"[ \t]+", " ", text)`: collapse each maximal run of spaces and
tabs to a single space (`prevRun` records whether the previous character
belonged to such a run). -/
def collapseSpaceTab (prevRun : Bool) : List Char → List Char
  | [] => []
  | c :: cs =>
      if c = ' ' || c = '\t' then
        if prevRun then collapseSpaceTab true cs
        else ' ' :: collapseSpaceTab true cs
      else c :: collapseSpaceTab false cs

/-- `re.sub(r"\n{3,}", "\n\n", text)`: each maximal run of `n ≥ 3` newlines
becomes exactly two, i.e. every run maps to `min n 2` (`run` counts the
newlines already seen in the current run). -/
def collapseNewlines (run : Nat) : List Char → List Char
  | [] => []
  | c :: cs =>
      if c = '\n' then
        if run < 2 then '\n' :: collapseNewlines (run + 1) cs
        else collapseNewlines (run + 1) cs
      else c :: collapseNewlines 0 cs

/-- `Parser._soup_to_text` (parser.py lines 92-113): clean the tree, insert
block breaks, extract text with `get_text(separator=" ", strip=True)`,
collapse space runs, cap newline runs, strip. -/
def soupToText (doc : List Node) : String :=
  pyStrip ⟨collapseNewlines 0 (collapseSpaceTab false (getTextStripJoin (blockBreakNodes (cleanNodes doc))).data)⟩

/-! ## Minimal HTML parsing (model of `BeautifulSoup(content, "lxml")`)

The concrete documents in the spec's claims use plain, well-nested,
attribute-free tags; lxml parses them into exactly the written tree.  The
model tokenizes `<tag>`, `</tag>` and text runs and builds the tree with an
open-element stack, auto-closing any elements left open at end of input. -/

inductive HtmlTok where
  | openTag (tag : String)
  | closeTag (tag : String)
  | textRun (s : String)
  deriving Repr, DecidableEq

/-- Turn the contents of `<...>` into a token: a leading `/` marks a close
tag; the tag name runs to the first space (attributes are not modelled; the
claims' documents carry none). -/
def mkTagTok (buf : List Char) : HtmlTok :=
  match buf with
  | '/' :: rest => HtmlTok.closeTag ⟨rest.takeWhile (· ≠ ' ')⟩
  | _ => HtmlTok.openTag ⟨buf.takeWhile (· ≠ ' ')⟩

/-- Tokenizer: `inTag` says whether we are between `<` and `>`; `buf` holds
the current token's characters in order. -/
def tokenizeHtml (inTag : Bool) (buf : List Char) : List Char → List HtmlTok
  | [] =>
      if inTag then []
      else if buf.isEmpty then [] else [HtmlTok.textRun ⟨buf⟩]
  | c :: cs =>
      if inTag then
        if c = '>' then mkTagTok buf :: tokenizeHtml false [] cs
        else tokenizeHtml true (buf ++ [c]) cs
      else
        if c = '<' then
          (if buf.isEmpty then [] else [HtmlTok.textRun ⟨buf⟩]) ++
            tokenizeHtml true [] cs
        else tokenizeHtml false (buf ++ [c]) cs

/-- Tree-builder state: the stack of open elements (innermost first, each
with its children collected so far in reverse) and the reversed top-level
node list. -/
structure BuildState where
  stack : List (String × List Node)
  top : List Node

/-- Attach a finished node to the innermost open element, or to the top
level. -/
def buildPush (st : BuildState) (n : Node) : BuildState :=
  match st.stack with
  | (t, cs) :: rest => ⟨(t, n :: cs) :: rest, st.top⟩
  | [] => ⟨[], n :: st.top⟩

/-- Process one token: open pushes a frame, text attaches a text node, and
close pops the innermost frame into a finished element (stray close tags
are ignored). -/
def buildStep (st : BuildState) : HtmlTok → BuildState
  | .openTag t => ⟨(t, []) :: st.stack, st.top⟩
  | .textRun s => buildPush st (Node.text s)
  | .closeTag _ =>
      match st.stack with
      | (t0, cs) :: rest => buildPush ⟨rest, st.top⟩ (Node.elem t0 [] cs.reverse)
      | [] => st

/-- Auto-close the remaining open elements around an already-closed
innermost node `n`: each frame wraps `n` and the frame's collected children
into a new element. -/
def buildFinishRest (n : Node) (top : List Node) : List (String × List Node) → List Node
  | [] => (n :: top).reverse
  | (t1, cs1) :: rest => buildFinishRest (Node.elem t1 [] (n :: cs1).reverse) top rest

/-- Close every element still open at end of input. -/
def buildFinish (st : BuildState) : List Node :=
  match st.stack with
  | [] => st.top.reverse
  | (t0, cs) :: rest => buildFinishRest (Node.elem t0 [] cs.reverse) st.top rest

/-- `BeautifulSoup(content, "lxml")` for plain well-nested documents. -/
def parseHtml (content : String) : List Node :=
  buildFinish ((tokenizeHtml false [] content.data).foldl buildStep ⟨[], []⟩)

/-- `Parser.parse` (parser.py lines 115-119): parse the HTML, trim the
soup, serialize to text. -/
def Parser.parse (p : ParserParameters) (content : String) : String :=
  soupToText (trimSoup p (parseHtml content))

/-! ## Crawl-frontier data model and store (`backend/data_models.py`,
`backend/db.py`) -/

/-- `URL` (data_models.py): one row per crawled page; the derived `id`
equals `url` and is omitted.  The Python field `prefix` is named
`prefix_str` here. -/
structure URL where
  url : String
  prefix_str : Option String := none
  raw_content : Option String := none
  parsed_content : Option String := none
  deriving Repr, DecidableEq

/-- `URLQueueItem` (data_models.py): queue payload.  Timestamps are the
non-negative ints produced by `int(time.time())`. -/
structure URLQueueItem where
  url : URL
  process_from_unix_timestamp : Nat
  times_queued : Nat := 0
  deriving Repr, DecidableEq

/-- `SampleURL` (data_models.py); the validation label carries only its
content string. -/
structure SampleURL where
  url : String
  raw_content : Option String := none
  label : Option String := none
  deriving Repr, DecidableEq

/-- `URLPrefix` (data_models.py).  The Python field `prefix` is named
`prefix_str`; `processing_status` is `None`, `"in_progress"`,
`"completed"` or `"failed"`. -/
structure URLPrefix where
  prefix_str : String
  sample_urls : List SampleURL := []
  validation_urls : Option (List SampleURL) := some []
  parser_config : Option ParserConfig := none
  processing_status : Option String := none
  deriving Repr, DecidableEq

/-- The Redis object store restricted to the entity types the frontier
reads: `URL` rows and `URLPrefix` rows, one row per id. -/
structure Store where
  urls : List URL
  prefixes : List URLPrefix
  deriving Repr, DecidableEq

/-- `db.load(URL, id)`: point lookup by the derived id (= url string). -/
def loadURL (store : Store) (id_ : String) : Option URL :=
  store.urls.find? (fun u => u.url = id_)

/-- `db.load(URLPrefix, id)`: point lookup by the derived id (= prefix
string). -/
def loadPrefix (store : Store) (id_ : String) : Option URLPrefix :=
  store.prefixes.find? (fun p => p.prefix_str = id_)

/-- Python `str.split(sep)` for a single-character separator: splits at
every occurrence, keeping empty pieces (auxiliary, with the current piece
accumulated in `buf`). -/
def splitOnCharAux (sep : Char) (buf : List Char) : List Char → List String
  | [] => [⟨buf⟩]
  | c :: cs =>
      if c = sep then String.mk buf :: splitOnCharAux sep [] cs
      else splitOnCharAux sep (buf ++ [c]) cs

/-- Python `str.split(sep)` for a single-character separator. -/
def splitOnChar (sep : Char) (s : String) : List String :=
  splitOnCharAux sep [] s.data

/-- Auxiliary loop of `find_prefix_for_url`: try
`'/'.join(url_parts[:i])` for `i = n, n-1, …, 1`. -/
def findPrefixAux (store : Store) (parts : List String) : Nat → Option URLPrefix
  | 0 => none
  | i + 1 =>
      match loadPrefix store (String.intercalate "/" (parts.take (i + 1))) with
      | some p => some p
      | none => findPrefixAux store parts i

/-- `find_prefix_for_url` (db.py lines 80-93): split the URL on `/` and
look up progressively shorter candidate prefixes, most specific first. -/
def find_prefix_for_url (store : Store) (url : String) : Option URLPrefix :=
  let parts := splitOnChar '/' url
  findPrefixAux store parts parts.length

/-- `findUrlsWithPrefix` (db.py lines 96-105): scan all `URL` rows and
keep those whose `prefix` equals the given string (a row with `prefix =
None` never matches). -/
def findUrlsWithPrefix (store : Store) (p : String) : List URL :=
  store.urls.filter (fun u => u.prefix_str = some p)

/-- Python truthiness of an `Optional[str]`: `None` and `""` are falsy. -/
def optStrTruthy : Option String → Bool
  | none => false
  | some s => !s.isEmpty

/-- Drop trailing empty strings (`while parts and not parts[-1]:
parts.pop()`). -/
def dropTrailingEmpty (parts : List String) : List String :=
  (parts.reverse.dropWhile (·.isEmpty)).reverse

/-- `ParsingWorker.get_deepest_prefix` (parsing_worker.py lines 30-49):
strip query and fragment, split on `/`; with path depth beyond the bare
domain, drop trailing empty segments and the final segment; otherwise
return the split parts rejoined. -/
def get_deepest_prefix (url : String) : String :=
  let u1 := (splitOnChar '?' url).headD url
  let u2 := (splitOnChar '#' u1).headD u1
  let parts := splitOnChar '/' u2
  if 3 < parts.length then
    String.intercalate "/" (dropTrailingEmpty parts).dropLast
  else
    String.intercalate "/" parts

/-! ## The frontier worker
(`ParsingWorker.process_url_queue_item`, parsing_worker.py lines 178-355)

The store, the wall clock, the HTTP fetcher, the extraction call (which may
raise) and the outlink extractor are explicit inputs; the returned outcome
records the result status together with every store write and queue push
the call performs. -/

/-- The environment of one `process_url_queue_item` call: `now` is
`int(time.time())`, `fetch` models `load_raw_html` (raising = `.error`),
`extract` models `Parser(config).parse(raw)` (raising = `.error`), and
`outlinks` models `extract_links_from_html raw base target_prefix`. -/
structure WorkerEnv where
  now : Nat
  store : Store
  fetch : String → Except String String
  extract : ParserConfig → String → Except String String
  outlinks : String → String → String → List String

/-- Everything one `process_url_queue_item` call does: its result status,
its store writes, and its queue pushes (URL item queue and prefix queue). -/
structure ProcOutcome where
  status : String
  savedUrls : List URL
  savedPrefixes : List URLPrefix
  urlQueuePushes : List URLQueueItem
  prefixQueuePushes : List URLPrefix
  deriving Repr, DecidableEq

/-- The "no prefix yet" path (parsing_worker.py lines 297-347): fetch the
page (failure → result `error`, nothing saved or queued), build a
`SampleURL`, append it to the existing `URLPrefix` at the deepest derived
prefix or create a new one, save and enqueue that prefix, then re-enqueue
the original item 30 seconds in the future with `times_queued`
incremented. -/
def processNoPrefix (env : WorkerEnv) (item : URLQueueItem) : ProcOutcome :=
  let deepest := get_deepest_prefix item.url.url
  match env.fetch item.url.url with
  | Except.error _ =>
      { status := "error", savedUrls := [], savedPrefixes := [],
        urlQueuePushes := [], prefixQueuePushes := [] }
  | Except.ok raw =>
      let sample : SampleURL := { url := item.url.url, raw_content := some raw }
      let savedPrefix :=
        match loadPrefix env.store deepest with
        | some existing => { existing with sample_urls := existing.sample_urls ++ [sample] }
        | none => { prefix_str := deepest, sample_urls := [sample] }
      let requeued := { item with
        process_from_unix_timestamp := env.now + 30,
        times_queued := item.times_queued + 1 }
      { status := "requeued", savedUrls := [], savedPrefixes := [savedPrefix],
        urlQueuePushes := [requeued], prefixQueuePushes := [savedPrefix] }

/-- The parser-config path (parsing_worker.py lines 213-295): skip an
already-parsed URL, otherwise fetch and extract (either failure → result
`error`, nothing saved or queued), save the enriched `URL`, and enqueue
every same-prefix outlink that is not already stored as parsed. -/
def processWithConfig (env : WorkerEnv) (item : URLQueueItem)
    (up : URLPrefix) (cfg : ParserConfig) : ProcOutcome :=
  match loadURL env.store item.url.url with
  | some existing =>
      if optStrTruthy existing.parsed_content then
        { status := "skipped", savedUrls := [], savedPrefixes := [],
          urlQueuePushes := [], prefixQueuePushes := [] }
      else processFetchParse env item up cfg
  | none => processFetchParse env item up cfg
where
  processFetchParse (env : WorkerEnv) (item : URLQueueItem)
      (up : URLPrefix) (cfg : ParserConfig) : ProcOutcome :=
    match env.fetch item.url.url with
    | Except.error _ =>
        { status := "error", savedUrls := [], savedPrefixes := [],
          urlQueuePushes := [], prefixQueuePushes := [] }
    | Except.ok raw =>
        match env.extract cfg raw with
        | Except.error _ =>
            { status := "error", savedUrls := [], savedPrefixes := [],
              urlQueuePushes := [], prefixQueuePushes := [] }
        | Except.ok parsed =>
            let url2 := { item.url with
              raw_content := some raw,
              parsed_content := some parsed,
              prefix_str := some up.prefix_str }
            let links := env.outlinks raw item.url.url up.prefix_str
            let pushes := (links.filter (fun l =>
                match loadURL env.store l with
                | some ex => !optStrTruthy ex.parsed_content
                | none => true)).map (fun l =>
              { url := { url := l, prefix_str := some up.prefix_str },
                process_from_unix_timestamp := env.now,
                times_queued := 0 })
            { status := "success", savedUrls := [url2], savedPrefixes := [],
              urlQueuePushes := pushes, prefixQueuePushes := [] }

/-- `ParsingWorker.process_url_queue_item` (parsing_worker.py lines
178-355): defer not-yet-due items unchanged; resolve the owning prefix;
drop when the prefix already has 20 or more `URL` rows; with a parser
config, fetch/extract/persist/discover; otherwise take the "no prefix yet"
path. -/
def process_url_queue_item (env : WorkerEnv) (item : URLQueueItem) : ProcOutcome :=
  if env.now < item.process_from_unix_timestamp then
    { status := "deferred", savedUrls := [], savedPrefixes := [],
      urlQueuePushes := [item], prefixQueuePushes := [] }
  else
    let upOpt := find_prefix_for_url env.store item.url.url
    let capHit : Bool :=
      match upOpt with
      | some up => 20 ≤ (findUrlsWithPrefix env.store up.prefix_str).length
      | none => false
    if capHit then
      { status := "dropped", savedUrls := [], savedPrefixes := [],
        urlQueuePushes := [], prefixQueuePushes := [] }
    else
      match upOpt with
      | some up =>
          match up.parser_config with
          | some cfg => processWithConfig env item up cfg
          | none => processNoPrefix env item
      | none => processNoPrefix env item

/-! ## The synthesis worker
(`ParserGenerationWorker.process_url_prefix_job`,
parser_generation_worker.py lines 34-128)

The store is an explicit input and the whole of
`generate_parser_for_url_prefix` (production-config lookup plus
`ParserGenerator.generateParser`) is a `gen` oracle: `.ok cfg` when it
returns a parser with config `cfg`, `.error` when it raises.  The outcome
records the result status and the ordered trace of `URLPrefix` saves. -/

/-- Result of one `process_url_prefix_job` call: status plus the ordered
list of `save(url_prefix)` writes it performed. -/
structure SynthOutcome where
  status : String
  saves : List URLPrefix
  deriving Repr, DecidableEq

/-- The body shared by all non-skipped paths: mark the prefix
`in_progress` and save it (lines 94-95), run generation, then save it
`completed` with the new config (lines 99-103) or `failed` (lines
117-119).  `pre` carries the saves already performed by the
failed-prefix reset. -/
def runSynthJob (gen : URLPrefix → Except String ParserConfig)
    (up : URLPrefix) (pre : List URLPrefix) : SynthOutcome :=
  let marked := { up with processing_status := some "in_progress" }
  match gen marked with
  | Except.ok cfg =>
      let updated := { marked with
        parser_config := some cfg, processing_status := some "completed" }
      { status := "success", saves := pre ++ [marked, updated] }
  | Except.error _ =>
      let failed := { marked with processing_status := some "failed" }
      { status := "error", saves := pre ++ [marked, failed] }

/-- `process_url_prefix_job` (lines 66-128): skip a prefix already
`in_progress`; reset a `failed` prefix to `None` status and save
(`reset_failed_url_prefix`, lines 34-38), continuing with the stored
object; then mark in progress, generate, and record success or failure. -/
def process_url_prefix_job (store : Store)
    (gen : URLPrefix → Except String ParserConfig) (up : URLPrefix) : SynthOutcome :=
  match loadPrefix store up.prefix_str with
  | some existing =>
      if existing.processing_status = some "in_progress" then
        { status := "skipped", saves := [] }
      else if existing.processing_status = some "failed" then
        let reset := { existing with processing_status := none }
        runSynthJob gen reset [reset]
      else runSynthJob gen up []
  | none => runSynthJob gen up []

/-! ## The parser synthesizer (`ParserGenerator.generateParser`,
parser.py lines 173-259)

The inference provider, the repair call, validation and the
reflection/merge pass are oracles; an `Except.error` models a raised
exception carrying `str(e)`.  `provider` receives the samples the
generation prompt was built from (`url_prefix.sample_urls[:num_examples]`,
line 174). -/

/-- The provider message sniffed at parser.py line 247. -/
def contextOverflowMsg : String :=
  "Your input exceeds the context window of this model"

/-- Oracles and prompt configuration for one `ParserGenerator`. -/
structure GenEnv where
  provider : List SampleURL → Except String ParserParameters
  repair : SampleURL → ParserConfig → String → Except String ParserParameters
  validate : ParserConfig → List SampleURL → Option (SampleURL × String)
  reflectMerge : ParserConfig → List SampleURL → Except String ParserConfig
  error_prompt : Option String
  reflection_prompt : Option String

/-- One iteration of the `while` body (parser.py lines 233-245), as the
exception-or-config it produces.  A failed validation with a configured
error prompt issues one repair call; the repaired value is a
`ParserConfig`, not a `Parser`, so its re-validation reports an
`AttributeError` for the first sample and the body raises
`Failed to generate parser with error: {original message}` (line 243),
exactly as it does with no error prompt. -/
def genAttempt (env : GenEnv) (samples : List SampleURL) (prefixName : String)
    (num_examples : Nat) : Except String ParserConfig :=
  match env.provider (samples.take num_examples) with
  | Except.error e => Except.error e
  | Except.ok params =>
      let cfg : ParserConfig := ⟨params, prefixName⟩
      match env.validate cfg samples with
      | none => Except.ok cfg
      | some (sample, errMsg) =>
          match env.error_prompt with
          | some _ =>
              match env.repair sample cfg errMsg with
              | Except.error e => Except.error e
              | Except.ok _ =>
                  Except.error ("Failed to generate parser with error: " ++ errMsg)
          | none => Except.error ("Failed to generate parser with error: " ++ errMsg)

/-- The `while num_examples > 0 and not success` loop (parser.py lines
232-250): a raised message containing the context-overflow phrase
decrements `num_examples` and retries; any other exception propagates;
exhausting the counter raises `Failed to generate parser` (line 259). -/
def generateParserLoop (env : GenEnv) (samples : List SampleURL)
    (prefixName : String) : Nat → Except String ParserConfig
  | 0 => Except.error "Failed to generate parser"
  | n + 1 =>
      match genAttempt env samples prefixName (n + 1) with
      | Except.ok cfg => Except.ok cfg
      | Except.error e =>
          if strContainsSub e contextOverflowMsg then
            generateParserLoop env samples prefixName n
          else Except.error e

/-- `generateParser` (parser.py lines 229-259): run the degradation loop
starting at `len(sample_urls)`; on success run the reflection/merge pass
when a reflection prompt is configured. -/
def generateParser (env : GenEnv) (up : URLPrefix) : Except String ParserConfig :=
  match generateParserLoop env up.sample_urls up.prefix_str up.sample_urls.length with
  | Except.error e => Except.error e
  | Except.ok cfg =>
      match env.reflection_prompt with
      | some _ => env.reflectMerge cfg up.sample_urls
      | none => Except.ok cfg

/-! ## URL normalization (`ParsingWorker.normalize_url`,
parsing_worker.py lines 51-115)

`normalize_url` delegates to `urllib.parse` (`urlparse`, `parse_qs`,
`urlencode`); those library functions are modelled below at the character
level, following the CPython 3.11 sources.  Two deliberately conservative
spots, neither reachable from any theorem in this file: a bracketed
(IPv6) host and a non-ASCII netloc are modelled as parse errors, where
CPython validates them further and can accept them. -/

/-- Python `str.lower()` on an ASCII character (the netloc and scheme
conditions below are ASCII-only). -/
def pyLowerChar (c : Char) : Char :=
  if 65 ≤ c.toNat ∧ c.toNat ≤ 90 then Char.ofNat (c.toNat + 32) else c

/-- Characters stripped by the WHATWG pre-strip in `urlsplit`
(C0 controls and space). -/
def isC0OrSpace (c : Char) : Bool :=
  c.toNat ≤ 32

/-- The `_UNSAFE_URL_BYTES_TO_REMOVE` of `urlsplit` (tab, CR, LF). -/
def isUnsafeUrlByte (c : Char) : Bool :=
  c.toNat = 9 || c.toNat = 13 || c.toNat = 10

/-- ASCII letter (`url[0].isascii() and url[0].isalpha()`). -/
def isAsciiAlpha (c : Char) : Bool :=
  (65 ≤ c.toNat && c.toNat ≤ 90) || (97 ≤ c.toNat && c.toNat ≤ 122)

/-- `urllib.parse.scheme_chars`: ASCII letters, digits, `+` (43),
`-` (45), `.` (46). -/
def isSchemeChar (c : Char) : Bool :=
  isAsciiAlpha c || (48 ≤ c.toNat && c.toNat ≤ 57) ||
    c.toNat = 43 || c.toNat = 45 || c.toNat = 46

/-- Split a character list at the first occurrence of `sep`
(`str.find` plus slicing, or `str.split(sep, 1)`), if present. -/
def splitAtFirstChar (sep : Char) : List Char → Option (List Char × List Char)
  | [] => none
  | c :: rest =>
      if c = sep then some ([], rest)
      else
        match splitAtFirstChar sep rest with
        | some (pre, post) => some (c :: pre, post)
        | none => none

/-- Result of `urllib.parse.urlparse`. -/
structure PyParseResult where
  scheme : String
  netloc : String
  path : String
  params : String
  query : String
  fragment : String
  deriving Repr, DecidableEq

/-- The `uses_params` scheme list of `urllib.parse`. -/
def usesParams : List String :=
  ["", "ftp", "hdl", "prospero", "http", "imap", "https", "shttp", "rtsp",
   "rtsps", "rtspu", "sip", "sips", "mms", "sftp", "tel"]

/-- `urllib.parse._splitparams`: split `;params` off the last path
segment (with a `/` in the path, only a `;` at or after the last `/`
counts). -/
def splitParamsPy (path : List Char) : List Char × List Char :=
  if path.contains '/' then
    let seg := (path.reverse.takeWhile (· ≠ '/')).reverse
    let stem := path.take (path.length - seg.length)
    match splitAtFirstChar ';' seg with
    | none => (path, [])
    | some (pre, post) => (stem ++ pre, post)
  else
    match splitAtFirstChar ';' path with
    | none => (path, [])
    | some (pre, post) => (pre, post)

/-- A netloc delimiter for `_splitnetloc` (`/`, `?` or `#`). -/
def isNetlocDelim (c : Char) : Bool :=
  c = '/' || c = '?' || c = '#'

/-- `urllib.parse.urlparse` (CPython 3.11 `urlsplit` + params split):
WHATWG lstrip, removal of tab/CR/LF, scheme detection (first `:` preceded
by a letter-initial run of scheme characters, lowercased), `//`-initiated
netloc up to the first `/?#` (IPv6 brackets and non-ASCII netlocs are
conservatively rejected, see the section comment), fragment at the first
`#`, query at the first `?`, and `;params` split off the last path
segment for the `uses_params` schemes. -/
def urlparseM (url : String) : Except String PyParseResult :=
  let cs0 := url.data.dropWhile isC0OrSpace
  let cs := cs0.filter (fun c => !isUnsafeUrlByte c)
  let schemeSplit : List Char × List Char :=
    match splitAtFirstChar ':' cs with
    | some (pre, post) =>
        match pre with
        | [] => ([], cs)
        | p0 :: _ =>
            if isAsciiAlpha p0 && pre.all isSchemeChar then (pre.map pyLowerChar, post)
            else ([], cs)
    | none => ([], cs)
  let sch := schemeSplit.1
  let u1 := schemeSplit.2
  let netlocRes : Except String (List Char × List Char) :=
    match u1 with
    | '/' :: '/' :: rest =>
        let nl := rest.takeWhile (fun c => !isNetlocDelim c)
        let u2 := rest.dropWhile (fun c => !isNetlocDelim c)
        if (nl.contains '[' ) != (nl.contains ']') then
          Except.error "Invalid IPv6 URL"
        else if nl.contains '[' then
          Except.error "bracketed host rejected by model"
        else if !nl.all (fun c => c.toNat < 128) then
          Except.error "non-ASCII netloc rejected by model"
        else Except.ok (nl, u2)
    | other => Except.ok ([], other)
  match netlocRes with
  | Except.error e => Except.error e
  | Except.ok (nl, u2) =>
      let fragSplit : List Char × List Char :=
        match splitAtFirstChar '#' u2 with
        | some (pre, post) => (pre, post)
        | none => (u2, [])
      let querySplit : List Char × List Char :=
        match splitAtFirstChar '?' fragSplit.1 with
        | some (pre, post) => (pre, post)
        | none => (fragSplit.1, [])
      let rawPath := querySplit.1
      let pathParams : List Char × List Char :=
        if usesParams.contains ⟨sch⟩ && rawPath.contains ';' then
          splitParamsPy rawPath
        else (rawPath, [])
      Except.ok ⟨⟨sch⟩, ⟨nl⟩, ⟨pathParams.1⟩, ⟨pathParams.2⟩,
        ⟨querySplit.2⟩, ⟨fragSplit.2⟩⟩

/-! Percent-quoting (`urllib.parse.quote_plus` with `safe=''`) and
unquoting (`urllib.parse.unquote` with utf-8/replace), at byte level. -/

/-- UTF-8 encoding of one character, as byte values. -/
def utf8EncodeChar (c : Char) : List Nat :=
  let n := c.toNat
  if n < 0x80 then [n]
  else if n < 0x800 then [0xC0 + n / 0x40, 0x80 + n % 0x40]
  else if n < 0x10000 then
    [0xE0 + n / 0x1000, 0x80 + (n / 0x40) % 0x40, 0x80 + n % 0x40]
  else
    [0xF0 + n / 0x40000, 0x80 + (n / 0x1000) % 0x40,
     0x80 + (n / 0x40) % 0x40, 0x80 + n % 0x40]

/-- The Unicode replacement character used by `errors='replace'`. -/
def replacementChar : Char := Char.ofNat 0xFFFD

/-- A UTF-8 continuation byte. -/
def isContByte (b : Nat) : Bool :=
  0x80 ≤ b && b < 0xC0

/-- `bytes.decode('utf-8', errors='replace')`: standard UTF-8 decoding
where each maximal invalid subpart yields one replacement character. -/
def utf8Decode : List Nat → List Char
  | [] => []
  | b :: bs =>
      if b < 0x80 then Char.ofNat b :: utf8Decode bs
      else if b < 0xC2 then replacementChar :: utf8Decode bs
      else if b < 0xE0 then
        match bs with
        | [] => [replacementChar]
        | b1 :: rest =>
            if isContByte b1 then
              Char.ofNat ((b - 0xC0) * 0x40 + (b1 - 0x80)) :: utf8Decode rest
            else replacementChar :: utf8Decode (b1 :: rest)
      else if b < 0xF0 then
        match bs with
        | [] => [replacementChar]
        | b1 :: rest =>
            if (b = 0xE0 && (0xA0 ≤ b1 && b1 < 0xC0)) ||
               (b = 0xED && (0x80 ≤ b1 && b1 < 0xA0)) ||
               (b ≠ 0xE0 && b ≠ 0xED && isContByte b1) then
              match rest with
              | [] => [replacementChar]
              | b2 :: rest2 =>
                  if isContByte b2 then
                    Char.ofNat ((b - 0xE0) * 0x1000 + (b1 - 0x80) * 0x40 + (b2 - 0x80))
                      :: utf8Decode rest2
                  else replacementChar :: utf8Decode (b2 :: rest2)
            else replacementChar :: utf8Decode (b1 :: rest)
      else if b < 0xF5 then
        match bs with
        | [] => [replacementChar]
        | b1 :: rest =>
            if (b = 0xF0 && (0x90 ≤ b1 && b1 < 0xC0)) ||
               (b = 0xF4 && (0x80 ≤ b1 && b1 < 0x90)) ||
               (b ≠ 0xF0 && b ≠ 0xF4 && isContByte b1) then
              match rest with
              | [] => [replacementChar]
              | b2 :: rest2 =>
                  if isContByte b2 then
                    match rest2 with
                    | [] => [replacementChar]
                    | b3 :: rest3 =>
                        if isContByte b3 then
                          Char.ofNat ((b - 0xF0) * 0x40000 + (b1 - 0x80) * 0x1000
                              + (b2 - 0x80) * 0x40 + (b3 - 0x80)) :: utf8Decode rest3
                        else replacementChar :: utf8Decode (b3 :: rest3)
                  else replacementChar :: utf8Decode (b2 :: rest2)
            else replacementChar :: utf8Decode (b1 :: rest)
      else replacementChar :: utf8Decode bs

/-- `urllib.parse._ALWAYS_SAFE`: ASCII letters, digits, `_`, `.`, `-`,
`~`, as byte values. -/
def alwaysSafeByte (b : Nat) : Bool :=
  (48 ≤ b && b ≤ 57) || (65 ≤ b && b ≤ 90) || (97 ≤ b && b ≤ 122) ||
    b = 45 || b = 46 || b = 95 || b = 126

/-- Upper-case hex digit of a value below 16 (`_Quoter` formats `%XX`
with upper-case hex). -/
def hexDigitUpper (n : Nat) : Char :=
  if n < 10 then Char.ofNat (48 + n) else Char.ofNat (55 + n)

/-- Percent-escape of one byte. -/
def percentEscape (b : Nat) : List Char :=
  ['%', hexDigitUpper (b / 16), hexDigitUpper (b % 16)]

/-- `urllib.parse.quote(s, safe)`: empty strings pass through; otherwise
the UTF-8 bytes are emitted, safe bytes verbatim (an all-safe byte string
is decoded back unchanged), the rest `%XX`-escaped. -/
def quotePy (s : String) (safe : List Nat) : String :=
  if s = "" then s
  else
    let bs := (s.data.map utf8EncodeChar).flatten
    if bs.all (fun b => alwaysSafeByte b || safe.contains b) then
      ⟨utf8Decode bs⟩
    else
      ⟨(bs.map (fun b =>
          if alwaysSafeByte b || safe.contains b then [Char.ofNat b]
          else percentEscape b)).flatten⟩

/-- `urllib.parse.quote_plus(s)` with `safe=''`: plain `quote` when `s`
has no space, else `quote` with space safe followed by `' '` → `'+'`. -/
def quotePlus (s : String) : String :=
  if !s.data.contains ' ' then quotePy s []
  else ⟨(quotePy s [32]).data.map (fun c => if c = ' ' then '+' else c)⟩

/-- One percent-scan token: a decoded `%XX` byte or a literal
character. -/
inductive ByteOrChar where
  | byte (b : Nat)
  | chr (c : Char)
  deriving Repr, DecidableEq

/-- Hex digit test (`string.hexdigits`). -/
def isHexDigitPy (c : Char) : Bool :=
  (48 ≤ c.toNat && c.toNat ≤ 57) || (65 ≤ c.toNat && c.toNat ≤ 70) ||
    (97 ≤ c.toNat && c.toNat ≤ 102)

/-- Value of a hex digit. -/
def hexVal (c : Char) : Nat :=
  if c.toNat ≤ 57 then c.toNat - 48
  else if c.toNat ≤ 70 then c.toNat - 55
  else c.toNat - 87

/-- Scan a string into literal characters and decoded `%XX` bytes
(a `%` not followed by two hex digits stays literal, as in
`unquote_to_bytes`). -/
def percentScan : List Char → List ByteOrChar
  | [] => []
  | '%' :: h1 :: h2 :: rest2 =>
      if isHexDigitPy h1 && isHexDigitPy h2 then
        ByteOrChar.byte (hexVal h1 * 16 + hexVal h2) :: percentScan rest2
      else ByteOrChar.chr '%' :: percentScan (h1 :: h2 :: rest2)
  | '%' :: rest => ByteOrChar.chr '%' :: percentScan rest
  | c :: rest => ByteOrChar.chr c :: percentScan rest

/-- Leading byte run of a scanned stream. -/
def takeByteRun : List ByteOrChar → List Nat × List ByteOrChar
  | ByteOrChar.byte b :: rest =>
      let r := takeByteRun rest
      (b :: r.1, r.2)
  | other => ([], other)

/-- Decode a scanned stream: each maximal byte run is UTF-8 decoded with
replacement, literal characters pass through (`fuel` bounds the length;
it is only consumed by well-formed progress). -/
def decodeScanned (fuel : Nat) (ts : List ByteOrChar) : List Char :=
  match fuel, ts with
  | _, [] => []
  | 0, _ => []
  | f + 1, ByteOrChar.chr c :: rest => c :: decodeScanned f rest
  | f + 1, ByteOrChar.byte b :: rest =>
      let r := takeByteRun rest
      utf8Decode (b :: r.1) ++ decodeScanned f r.2

/-- `urllib.parse.unquote(s, 'utf-8', 'replace')`: strings without `%`
pass through; otherwise `%XX` runs are decoded as UTF-8 with
replacement. -/
def unquotePy (cs : List Char) : List Char :=
  if !cs.contains '%' then cs
  else decodeScanned cs.length (percentScan cs)

/-! `parse_qs` / `urlencode` and the tracking filter of
`normalize_url`. -/

/-- `str.replace('+', ' ')` on one character (the pattern is a single
character, so the replacement is character-wise). -/
def plusSp (c : Char) : Char :=
  if c = '+' then ' ' else c

/-- Processing of one `&`-chunk in `parse_qsl`: skip empty chunks,
chunks without `=` and chunks with an empty value; otherwise `+` → space
and `unquote` on both name and value. -/
def qslStep (chunk : List Char) (acc : List (String × String)) :
    List (String × String) :=
  if chunk.isEmpty then acc
  else
    match splitAtFirstChar '=' chunk with
    | none => acc
    | some (name, value) =>
        if value.isEmpty then acc
        else (⟨unquotePy (name.map plusSp)⟩, ⟨unquotePy (value.map plusSp)⟩) :: acc

/-- `urllib.parse.parse_qsl(qs)` with default arguments: split on `&`
and process the chunks in order. -/
def parse_qsl (qs : List Char) : List (String × String) :=
  if qs.isEmpty then []
  else ((splitOnCharAux '&' [] qs).map String.data).foldr qslStep []

/-- Insert one pair into the insertion-ordered multi-dict of
`parse_qs`. -/
def groupInsert (name value : String) :
    List (String × List String) → List (String × List String)
  | [] => [(name, [value])]
  | (k, vs) :: rest =>
      if k = name then (k, vs ++ [value]) :: rest
      else (k, vs) :: groupInsert name value rest

/-- `urllib.parse.parse_qs(qs)`: group the `parse_qsl` pairs by name,
preserving first-seen name order and value order. -/
def parse_qs (qs : List Char) : List (String × List String) :=
  (parse_qsl qs).foldl (fun acc kv => groupInsert kv.1 kv.2 acc) []

/-- The tracking-parameter block-set of `normalize_url`
(parsing_worker.py lines 89-93). -/
def trackingParams : List String :=
  ["utm_source", "utm_medium", "utm_campaign", "utm_term", "utm_content",
   "fbclid", "gclid", "msclkid", "ref", "source", "campaign",
   "sessionid", "sid", "token", "auth", "key"]

/-- One group of the parameter filter of `normalize_url` (lines 96-101):
drop names whose lower-case form is tracked, keep only values with
non-blank strip, flatten back to pairs. -/
def ftfStep (acc : List (String × String)) (kg : String × List String) :
    List (String × String) :=
  if trackingParams.contains ⟨kg.1.data.map pyLowerChar⟩ then acc
  else
    let nonEmpty := kg.2.filter (fun v => !(pyStrip v).isEmpty)
    if nonEmpty.isEmpty then acc
    else acc ++ nonEmpty.map (fun v => (kg.1, v))

/-- The parameter filter of `normalize_url` (lines 96-101). -/
def filterTrackingFlatten (groups : List (String × List String)) :
    List (String × String) :=
  groups.foldl ftfStep []

/-- Code-point lexicographic comparison of character lists (Python `str`
`<`). -/
def charListLt : List Char → List Char → Bool
  | [], [] => false
  | [], _ :: _ => true
  | _ :: _, [] => false
  | a :: as, b :: bs =>
      if a.toNat < b.toNat then true
      else if b.toNat < a.toNat then false
      else charListLt as bs

/-- Python tuple comparison on string pairs. -/
def pairLtPy (x y : String × String) : Bool :=
  charListLt x.1.data y.1.data ||
    (x.1 = y.1 && charListLt x.2.data y.2.data)

/-- Stable insertion into a sorted pair list. -/
def insertPair (x : String × String) :
    List (String × String) → List (String × String)
  | [] => [x]
  | y :: ys => if pairLtPy x y then x :: y :: ys else y :: insertPair x ys

/-- `query_params.sort()` (line 104): sort pairs in Python tuple order. -/
def sortPairs (l : List (String × String)) : List (String × String) :=
  l.foldr insertPair []

/-- Lines 81-104 of `normalize_url`: the sorted, filtered query pairs
(empty when the query is empty). -/
def queryPairs (q : String) : List (String × String) :=
  if q = "" then []
  else sortPairs (filterTrackingFlatten (parse_qs q.data))

/-- `'&'.join(chunks)` at character level. -/
def joinAmp : List String → List Char
  | [] => []
  | [s] => s.data
  | s :: rest => s.data ++ '&' :: joinAmp rest

/-- `urllib.parse.urlencode(query_params)` with default arguments:
`quote_plus(k)=quote_plus(v)` chunks joined by `&`. -/
def urlencodePairs (l : List (String × String)) : String :=
  ⟨joinAmp (l.map (fun kv => quotePlus kv.1 ++ "=" ++ quotePlus kv.2))⟩

/-- Python `str.replace(pat, repl)` for a non-empty pattern: replace all
non-overlapping occurrences left to right (`fuel` bounds the scan and is
initialized to the string length). -/
def replaceListAux (pat repl : List Char) : Nat → List Char → List Char
  | 0, cs => cs
  | _, [] => []
  | f + 1, c :: cs =>
      if pat.isPrefixOf (c :: cs) then
        repl ++ replaceListAux pat repl f ((c :: cs).drop pat.length)
      else c :: replaceListAux pat repl f cs

/-- Python `str.replace(pat, repl)` for a non-empty pattern. -/
def replaceList (pat repl cs : List Char) : List Char :=
  replaceListAux pat repl cs.length cs

/-- The four normalized components `normalize_url` computes before
reassembly. -/
structure NormComponents where
  scheme : List Char
  netloc : List Char
  path : List Char
  pairs : List (String × String)
  deriving Repr, DecidableEq

/-- Lines 57-104 of `normalize_url`: lower-case scheme and netloc, strip
one leading `www.`, strip the default port for the matching scheme (all
occurrences, only when present), strip one trailing slash from a
non-root path, and filter/sort the query pairs. -/
def normComponents (p : PyParseResult) : NormComponents :=
  let scheme := p.scheme.data.map pyLowerChar
  let netloc0 := p.netloc.data.map pyLowerChar
  let netloc1 :=
    if "www.".data.isPrefixOf netloc0 then netloc0.drop 4 else netloc0
  let netloc2 :=
    if ⟨scheme⟩ = ("https" : String) && listContainsSub ":443".data netloc1 then
      replaceList ":443".data [] netloc1
    else if ⟨scheme⟩ = ("http" : String) && listContainsSub ":80".data netloc1 then
      replaceList ":80".data [] netloc1
    else netloc1
  let path0 := p.path.data
  let path1 :=
    if path0 ≠ ['/'] ∧ path0.getLast? = some '/' then path0.dropLast else path0
  ⟨scheme, netloc2, path1, queryPairs p.query⟩

/-- Lines 106-111 of `normalize_url`: `f"{scheme}://{netloc}{path}"`
plus `?`-encoded query pairs when any survived. -/
def reconUrl (c : NormComponents) : String :=
  let base := String.mk c.scheme ++ "://" ++ String.mk c.netloc ++ String.mk c.path
  if c.pairs.isEmpty then base else base ++ "?" ++ urlencodePairs c.pairs

/-- `ParsingWorker.normalize_url` (parsing_worker.py lines 51-115): parse,
normalize the components, reassemble; any exception returns the input
unchanged. -/
def normalize_url (url : String) : String :=
  match urlparseM url with
  | Except.error _ => url
  | Except.ok p => reconUrl (normComponents p)

/-- Unreserved query characters: the `_ALWAYS_SAFE` set, on which
`quote_plus` and `unquote` act as the identity. -/
def safeQChar (c : Char) : Bool :=
  alwaysSafeByte c.toNat

/-- Pairwise sortedness in Python tuple order (ties allowed). -/
def pairsSorted : List (String × String) → Bool
  | [] => true
  | [_] => true
  | x :: y :: r => (pairLtPy x y || x == y) && pairsSorted (y :: r)

/-- Well-formedness of a parsed URL under which normalization is proved
idempotent, stated on the computed normalized components: a non-empty
lower-case scheme of scheme characters, a non-empty lower-case ASCII
netloc free of delimiters, brackets, a leading `www.` and `:443`/`:80`
substrings, a path that is absolute (or empty) with no `?`/`#`/`;`/
tab/CR/LF and no non-root trailing slash, and query pairs that are
sorted, name-distinct, untracked, non-empty-valued and built from
unreserved characters. -/
def CondOnParse (p : PyParseResult) : Prop :=
  let c := normComponents p
  (c.scheme ≠ [] ∧
    isAsciiAlpha (c.scheme.headD ' ') = true ∧
    (∀ ch ∈ c.scheme, isSchemeChar ch = true) ∧
    (∀ ch ∈ c.scheme, pyLowerChar ch = ch)) ∧
  (c.netloc ≠ [] ∧
    (∀ ch ∈ c.netloc,
      (32 < ch.toNat ∧ ch.toNat < 128) ∧ isNetlocDelim ch = false ∧
        ch ≠ '[' ∧ ch ≠ ']') ∧
    (∀ ch ∈ c.netloc, pyLowerChar ch = ch) ∧
    "www.".data.isPrefixOf c.netloc = false ∧
    listContainsSub ":443".data c.netloc = false ∧
    listContainsSub ":80".data c.netloc = false) ∧
  ((c.path = [] ∨ c.path.headD ' ' = '/') ∧
    (∀ ch ∈ c.path,
      isUnsafeUrlByte ch = false ∧ ch ≠ '?' ∧ ch ≠ '#' ∧ ch ≠ ';') ∧
    (c.path = ['/'] ∨ c.path.getLast? ≠ some '/')) ∧
  ((∀ kv ∈ c.pairs,
      (∀ ch ∈ (kv.1 : String).data, safeQChar ch = true) ∧
      (∀ ch ∈ (kv.2 : String).data, safeQChar ch = true) ∧
      kv.2 ≠ "" ∧
      trackingParams.contains ⟨kv.1.data.map pyLowerChar⟩ = false) ∧
    pairsSorted c.pairs = true ∧
    (c.pairs.map Prod.fst).Nodup)

instance : DecidablePred CondOnParse := fun p => by
  unfold CondOnParse
  infer_instance

/-- The idempotence condition on an input URL: it parses, and the parse
satisfies `CondOnParse`. -/
def NormCond (u : String) : Prop :=
  match urlparseM u with
  | Except.error _ => False
  | Except.ok p => CondOnParse p

instance : DecidablePred NormCond := fun u => by
  unfold NormCond
  rcases urlparseM u with e | p
  · exact inferInstanceAs (Decidable False)
  · exact inferInstanceAs (Decidable (CondOnParse p))

/-! ## Concrete fixtures used by witnesses and counterexamples -/

/-- A fetcher that always fails (network error). -/
def fetchFail : String → Except String String := fun _ => Except.error "HTTP 500"

/-- A fetcher that always succeeds with a fixed page. -/
def fetchOk : String → Except String String := fun _ => Except.ok "<html><body></body></html>"

/-- An extraction call that always succeeds with empty text. -/
def extractTrivial : ParserConfig → String → Except String String := fun _ _ => Except.ok ""

/-- An outlink extractor that finds no links. -/
def noOutlinks : String → String → String → List String := fun _ _ _ => []

/-- Environment for the deferral witness: empty store, `now = 50`. -/
def deferEnv : WorkerEnv := ⟨50, ⟨[], []⟩, fetchFail, extractTrivial, noOutlinks⟩

/-- An item scheduled for `t = 100`, already queued twice. -/
def deferItem : URLQueueItem := ⟨{ url := "https://e.com/a/x" }, 100, 2⟩

/-- 20 stored `URL` rows under the prefix `https://e.com/a`. -/
def capUrls : List URL :=
  (List.range 20).map (fun i =>
    { url := "https://e.com/a/" ++ String.mk (List.replicate (i + 1) 'p'),
      prefix_str := some "https://e.com/a" })

/-- Store holding the prefix row and its 20 URL rows. -/
def capStore : Store := ⟨capUrls, [{ prefix_str := "https://e.com/a" }]⟩

/-- Environment for the per-prefix-cap witness. -/
def capEnv : WorkerEnv := ⟨200, capStore, fetchOk, extractTrivial, noOutlinks⟩

/-- A due item under the capped prefix. -/
def capItem : URLQueueItem := ⟨{ url := "https://e.com/a/x" }, 0, 0⟩

/-- Environment for the no-prefix path: empty store and a failing fetch. -/
def noPrefixFailEnv : WorkerEnv := ⟨100, ⟨[], []⟩, fetchFail, extractTrivial, noOutlinks⟩

/-- A due item whose URL has no owning prefix in the (empty) store. -/
def noPrefixItem : URLQueueItem := ⟨{ url := "https://e.com/a/x" }, 0, 1⟩

/-- A stored prefix whose last synthesis attempt failed. -/
def synthFailedPrefix : URLPrefix :=
  { prefix_str := "https://e.com/a", processing_status := some "failed" }

/-- Store containing only the failed prefix row. -/
def synthFailedStore : Store := ⟨[], [synthFailedPrefix]⟩

/-- The copy of the prefix dequeued from the work queue (stale status). -/
def synthDequeued : URLPrefix := { prefix_str := "https://e.com/a" }

/-- A generation oracle that always succeeds. -/
def genOkOracle : URLPrefix → Except String ParserConfig :=
  fun up => Except.ok ⟨⟨["main"], [], [], []⟩, up.prefix_str⟩

/-- Five samples for the adaptive-degradation witness. -/
def degSamples : List SampleURL :=
  [{ url := "u1" }, { url := "u2" }, { url := "u3" }, { url := "u4" }, { url := "u5" }]

/-- The prefix owning the five samples. -/
def degPrefix : URLPrefix := { prefix_str := "https://e.com/a", sample_urls := degSamples }

/-- The parameters the provider answers with at attempt size 2. -/
def degParams : ParserParameters := ⟨["main"], [], [], []⟩

/-- A provider that overflows except on exactly two samples. -/
def degProvider : List SampleURL → Except String ParserParameters :=
  fun l => if l.length = 2 then Except.ok degParams else Except.error contextOverflowMsg

/-- Generator environment for the degradation witness: no error prompt, no
reflection prompt, validation always passes. -/
def degEnv : GenEnv :=
  ⟨degProvider, fun _ _ _ => Except.error "no repair", fun _ _ => none,
   fun cfg _ => Except.ok cfg, none, none⟩

/-- Generator environment whose provider always overflows. -/
def degAllOverflowEnv : GenEnv :=
  ⟨fun _ => Except.error contextOverflowMsg, fun _ _ _ => Except.error "no repair",
   fun _ _ => none, fun cfg _ => Except.ok cfg, none, none⟩

/-! ## Helper lemmas about the element set of `listSetUnion` -/

theorem listSetUnion_toFinset (xs ys : List String) :
    (listSetUnion xs ys).toFinset = xs.toFinset ∪ ys.toFinset := by
  ext a
  simp [listSetUnion, List.mem_toFinset, List.mem_dedup, List.mem_append]

@[simp] theorem ParserParameters.add_root (a b : ParserParameters) :
    (a + b).root = listSetUnion a.root b.root := rfl

@[simp] theorem ParserParameters.add_keep (a b : ParserParameters) :
    (a + b).keep = listSetUnion a.keep b.keep := rfl

@[simp] theorem ParserParameters.add_drop (a b : ParserParameters) :
    (a + b).drop = listSetUnion a.drop b.drop := rfl

@[simp] theorem ParserParameters.add_unwrap (a b : ParserParameters) :
    (a + b).unwrap = listSetUnion a.unwrap b.unwrap := rfl

@[simp] theorem ParserConfig.add_parameters (a b : ParserConfig) :
    (a + b).parameters = a.parameters + b.parameters := rfl

@[simp] theorem ParserConfig.add_prefix_name (a b : ParserConfig) :
    (a + b).prefix_name = a.prefix_name := rfl

theorem listSetUnion_set_assoc (xs ys zs : List String) :
    (listSetUnion (listSetUnion xs ys) zs).toFinset
      = (listSetUnion xs (listSetUnion ys zs)).toFinset := by
  simp [listSetUnion_toFinset, Finset.union_assoc]

theorem listSetUnion_set_comm (xs ys : List String) :
    (listSetUnion xs ys).toFinset = (listSetUnion ys xs).toFinset := by
  simp [listSetUnion_toFinset, Finset.union_comm]

theorem listSetUnion_set_idem (xs : List String) :
    (listSetUnion xs xs).toFinset = xs.toFinset := by
  simp [listSetUnion_toFinset]

theorem ParserParameters.add_setEq_assoc (a b c : ParserParameters) :
    ((a + b) + c).setEq (a + (b + c)) := by
  refine ⟨?_, ?_, ?_, ?_⟩ <;>
    simp only [ParserParameters.add_root, ParserParameters.add_keep,
      ParserParameters.add_drop, ParserParameters.add_unwrap,
      listSetUnion_set_assoc]

theorem ParserParameters.add_setEq_comm (a b : ParserParameters) :
    (a + b).setEq (b + a) := by
  refine ⟨?_, ?_, ?_, ?_⟩ <;>
    simp only [ParserParameters.add_root, ParserParameters.add_keep,
      ParserParameters.add_drop, ParserParameters.add_unwrap,
      listSetUnion_set_comm]

theorem ParserParameters.add_setEq_idem (a : ParserParameters) :
    (a + a).setEq a := by
  refine ⟨?_, ?_, ?_, ?_⟩ <;>
    simp only [ParserParameters.add_root, ParserParameters.add_keep,
      ParserParameters.add_drop, ParserParameters.add_unwrap,
      listSetUnion_set_idem]

/-- C1: config merge (the `+` operator on `ParserParameters` / `ParserConfig`)
is commutative, associative and idempotent: for all configs `a`, `b`, `c` for
the same prefix, `(a+b)+c == a+(b+c)`, `a+b == b+a` and `a+a == a`, where
equality of the four selector fields is set equality. -/
theorem config_merge_comm_assoc_idem :
    (∀ a b c : ParserParameters,
        ((a + b) + c).setEq (a + (b + c)) ∧ (a + b).setEq (b + a) ∧ (a + a).setEq a) ∧
    (∀ a b c : ParserConfig,
        a.prefix_name = b.prefix_name → b.prefix_name = c.prefix_name →
        ((a + b) + c).setEq (a + (b + c)) ∧ (a + b).setEq (b + a) ∧ (a + a).setEq a) := by
  constructor
  · intro a b c
    exact ⟨ParserParameters.add_setEq_assoc a b c,
           ParserParameters.add_setEq_comm a b,
           ParserParameters.add_setEq_idem a⟩
  · intro a b c hab _
    refine ⟨⟨ParserParameters.add_setEq_assoc _ _ _, rfl⟩,
            ⟨ParserParameters.add_setEq_comm _ _, ?_⟩,
            ⟨ParserParameters.add_setEq_idem _, rfl⟩⟩
    simpa using hab

/-- Witness for C1 at concrete configs sharing prefix `"https://e.com/a"`. -/
theorem config_merge_comm_assoc_idem_witness :
    (let a : ParserConfig := ⟨⟨["main"], [], ["script"], []⟩, "https://e.com/a"⟩
     let b : ParserConfig := ⟨⟨["article"], ["p"], [], ["span"]⟩, "https://e.com/a"⟩
     let c : ParserConfig := ⟨⟨["main"], [], ["nav"], []⟩, "https://e.com/a"⟩
     ((a + b) + c).setEq (a + (b + c)) ∧ (a + b).setEq (b + a) ∧ (a + a).setEq a) :=
  config_merge_comm_assoc_idem.2
    ⟨⟨["main"], [], ["script"], []⟩, "https://e.com/a"⟩
    ⟨⟨["article"], ["p"], [], ["span"]⟩, "https://e.com/a"⟩
    ⟨⟨["main"], [], ["nav"], []⟩, "https://e.com/a"⟩
    rfl rfl

/-- C2 counterexample: contrary to the claim, setting the run-state flag to
`"PAUSED"` is rejected by `set_system_state` (db.py accepts only `"PAUSE"`
and `"RUNNING"`). -/
theorem set_system_state_rejects_paused :
    set_system_state "PAUSED" = Except.error "State must be either PAUSE or RUNNING" ∧
    set_system_state "PAUSE" = Except.ok "PAUSE" := by
  exact ⟨rfl, rfl⟩

/-- C2 (amended): the run-state flag accepts exactly the two values
`"RUNNING"` and `"PAUSE"`; any other string is rejected with a `ValueError`,
and reading an unset flag yields `"RUNNING"`. -/
theorem system_state_two_values :
    (∀ s : String, s ≠ "PAUSE" → s ≠ "RUNNING" →
        set_system_state s = Except.error "State must be either PAUSE or RUNNING") ∧
    set_system_state "PAUSE" = Except.ok "PAUSE" ∧
    set_system_state "RUNNING" = Except.ok "RUNNING" ∧
    get_system_state none = "RUNNING" := by
  refine ⟨?_, rfl, rfl, rfl⟩
  intro s h1 h2
  simp [set_system_state, h1, h2]

/-- Witness for C2: the concrete string `"STOPPED"` is rejected. -/
theorem system_state_two_values_witness :
    set_system_state "STOPPED" = Except.error "State must be either PAUSE or RUNNING" :=
  system_state_two_values.1 "STOPPED" (by decide) (by decide)

/-- C5: for the input HTML
`<html><body><nav>X</nav><main><p>Hello</p><script>bad</script></main></body></html>`
and `ParserParameters` with `root=["main"]`, `drop=["script"]`, `keep=[]`,
`unwrap=[]`, `Parser.parse` returns exactly the string `"Hello"`. -/
theorem extraction_end_to_end :
    Parser.parse { root := ["main"], keep := [], drop := ["script"], unwrap := [] }
      "<html><body><nav>X</nav><main><p>Hello</p><script>bad</script></main></body></html>"
      = "Hello" := rfl

/-- C10: when the root selectors match nothing in the document, the
root-restriction step deletes nothing and the document passes through
unchanged; the keep-restriction step behaves the same way when the keep
selectors match nothing. -/
theorem no_match_passthrough (sels : List String) (doc : List Node)
    (h : selectNodes sels doc = []) :
    rootStep sels doc = doc ∧ keepStep sels doc = doc := by
  unfold rootStep keepStep
  constructor <;> · rw [h]; simp

/-- Witness for C10: the selector `article` matches nothing in a concrete
paragraph document, which both steps leave untouched. -/
theorem no_match_passthrough_witness :
    rootStep ["article"] (parseHtml "<html><body><p>x</p></body></html>")
        = parseHtml "<html><body><p>x</p></body></html>" ∧
    keepStep ["article"] (parseHtml "<html><body><p>x</p></body></html>")
        = parseHtml "<html><body><p>x</p></body></html>" :=
  no_match_passthrough ["article"] (parseHtml "<html><body><p>x</p></body></html>") rfl

/-- C9: a dequeued item whose scheduled time has not arrived is re-enqueued
as-is — same `process_from_unix_timestamp`, same `times_queued`, same
embedded `URL` — with result `deferred` and no store write. -/
theorem deferred_item_unchanged (env : WorkerEnv) (item : URLQueueItem)
    (h : env.now < item.process_from_unix_timestamp) :
    process_url_queue_item env item =
      { status := "deferred", savedUrls := [], savedPrefixes := [],
        urlQueuePushes := [item], prefixQueuePushes := [] } := by
  unfold process_url_queue_item
  simp [h]

/-- Witness for C9 at a concrete environment and item. -/
theorem deferred_item_unchanged_witness :
    process_url_queue_item deferEnv deferItem =
      { status := "deferred", savedUrls := [], savedPrefixes := [],
        urlQueuePushes := [deferItem], prefixQueuePushes := [] } :=
  deferred_item_unchanged deferEnv deferItem (by decide)

/-- C6: a due item whose URL resolves to a prefix that already owns at
least 20 stored `URL` rows is dropped: result `dropped`, nothing saved,
nothing re-enqueued. -/
theorem per_prefix_cap_drops (env : WorkerEnv) (item : URLQueueItem) (up : URLPrefix)
    (hts : ¬ env.now < item.process_from_unix_timestamp)
    (hp : find_prefix_for_url env.store item.url.url = some up)
    (hcap : 20 ≤ (findUrlsWithPrefix env.store up.prefix_str).length) :
    process_url_queue_item env item =
      { status := "dropped", savedUrls := [], savedPrefixes := [],
        urlQueuePushes := [], prefixQueuePushes := [] } := by
  unfold process_url_queue_item
  simp [hts, hp, hcap]

/-- Witness for C6: a store with exactly 20 URL rows under
`https://e.com/a` drops the next item for that prefix. -/
theorem per_prefix_cap_drops_witness :
    process_url_queue_item capEnv capItem =
      { status := "dropped", savedUrls := [], savedPrefixes := [],
        urlQueuePushes := [], prefixQueuePushes := [] } :=
  per_prefix_cap_drops capEnv capItem { prefix_str := "https://e.com/a" }
    (by decide) (by rfl) (by rfl)

/-- C3 counterexample: on the "no prefix yet" path a fetch failure does NOT
re-enqueue the original item — the call returns result `error` with an
empty list of queue pushes, contradicting the claim that the item is still
put back on the queue. -/
theorem no_prefix_fetch_error_discards :
    process_url_queue_item noPrefixFailEnv noPrefixItem =
      { status := "error", savedUrls := [], savedPrefixes := [],
        urlQueuePushes := [], prefixQueuePushes := [] } := rfl

/-- C3 (amended): on the "no prefix yet" path a fetch failure is terminal —
result `error`, the item is discarded, nothing is saved or enqueued; the
original item is re-enqueued (with `now + 30` and `times_queued + 1`) only
when the fetch succeeds. -/
theorem no_prefix_path_fetch_behavior (env : WorkerEnv) (item : URLQueueItem)
    (hts : ¬ env.now < item.process_from_unix_timestamp)
    (hp : find_prefix_for_url env.store item.url.url = none) :
    (∀ e, env.fetch item.url.url = Except.error e →
        process_url_queue_item env item =
          { status := "error", savedUrls := [], savedPrefixes := [],
            urlQueuePushes := [], prefixQueuePushes := [] }) ∧
    (∀ raw, env.fetch item.url.url = Except.ok raw →
        (process_url_queue_item env item).status = "requeued" ∧
        (process_url_queue_item env item).urlQueuePushes =
          [{ item with process_from_unix_timestamp := env.now + 30,
                       times_queued := item.times_queued + 1 }]) := by
  unfold process_url_queue_item
  simp only [hp, hts, if_false, ite_false]
  constructor
  · intro e he
    simp [processNoPrefix, he]
  · intro raw hraw
    simp [processNoPrefix, hraw]

/-! ## Helper lemmas for the normalization idempotence proof -/

theorem map_eq_self_of_forall {α : Type} (f : α → α) (l : List α)
    (h : ∀ x ∈ l, f x = x) : l.map f = l := by
  induction l with
  | nil => rfl
  | cons a as ih =>
      simp only [List.map_cons, h a (by simp)]
      rw [ih (fun x hx => h x (by simp [hx]))]

theorem takeWhile_append_of_all (p : Char → Bool) (l₁ l₂ : List Char)
    (h : ∀ c ∈ l₁, p c = true) :
    (l₁ ++ l₂).takeWhile p = l₁ ++ l₂.takeWhile p := by
  induction l₁ with
  | nil => rfl
  | cons a as ih =>
      simp only [List.cons_append, List.takeWhile_cons, h a (by simp), if_true]
      rw [ih (fun c hc => h c (by simp [hc]))]

theorem dropWhile_append_of_all (p : Char → Bool) (l₁ l₂ : List Char)
    (h : ∀ c ∈ l₁, p c = true) :
    (l₁ ++ l₂).dropWhile p = l₂.dropWhile p := by
  induction l₁ with
  | nil => rfl
  | cons a as ih =>
      simp only [List.cons_append, List.dropWhile_cons, h a (by simp), if_true]
      exact ih (fun c hc => h c (by simp [hc]))

theorem dropWhile_eq_self_of_all (p : Char → Bool) (l : List Char)
    (h : ∀ c ∈ l, p c = false) : l.dropWhile p = l := by
  cases l with
  | nil => rfl
  | cons a as => simp [List.dropWhile_cons, h a (by simp)]

theorem splitAtFirstChar_append (sep : Char) (l₁ l₂ : List Char)
    (h : ∀ c ∈ l₁, c ≠ sep) :
    splitAtFirstChar sep (l₁ ++ sep :: l₂) = some (l₁, l₂) := by
  induction l₁ with
  | nil => simp [splitAtFirstChar]
  | cons a as ih =>
      have ha : ¬ a = sep := h a (by simp)
      have ih2 := ih (fun c hc => h c (by simp [hc]))
      simp only [List.cons_append, splitAtFirstChar, ha, if_false]
      rw [show (as.append (sep :: l₂)) = as ++ sep :: l₂ from rfl, ih2]

theorem splitAtFirstChar_none (sep : Char) (l : List Char)
    (h : ∀ c ∈ l, c ≠ sep) : splitAtFirstChar sep l = none := by
  induction l with
  | nil => rfl
  | cons a as ih =>
      have ha : ¬ a = sep := h a (by simp)
      have ih2 := ih (fun c hc => h c (by simp [hc]))
      simp only [splitAtFirstChar, ha, if_false, ih2]

theorem isSchemeChar_gt32 (c : Char) (h : isSchemeChar c = true) :
    32 < c.toNat ∧ c.toNat < 128 := by
  revert h
  simp only [isSchemeChar, isAsciiAlpha, Bool.or_eq_true, Bool.and_eq_true,
    decide_eq_true_eq]
  omega

theorem gt32_clean (c : Char) (h : 32 < c.toNat) :
    isC0OrSpace c = false ∧ isUnsafeUrlByte c = false := by
  unfold isC0OrSpace isUnsafeUrlByte
  refine ⟨decide_eq_false (by omega), ?_⟩
  have h9 : (decide (c.toNat = 9)) = false := decide_eq_false (by omega)
  have h13 : (decide (c.toNat = 13)) = false := decide_eq_false (by omega)
  have h10 : (decide (c.toNat = 10)) = false := decide_eq_false (by omega)
  rw [h9, h13, h10]
  rfl

theorem isSchemeChar_clean (c : Char) (h : isSchemeChar c = true) :
    isC0OrSpace c = false ∧ isUnsafeUrlByte c = false ∧ c ≠ ':' := by
  have h32 := isSchemeChar_gt32 c h
  have hcl := gt32_clean c h32.1
  refine ⟨hcl.1, hcl.2, ?_⟩
  intro hc
  rw [hc] at h
  revert h
  decide

theorem safeQChar_facts (c : Char) (h : safeQChar c = true) :
    32 < c.toNat ∧ c.toNat < 128 := by
  revert h
  simp only [safeQChar, alwaysSafeByte, Bool.or_eq_true, Bool.and_eq_true,
    decide_eq_true_eq]
  omega

theorem safeQChar_ne (c : Char) (h : safeQChar c = true) (d : Char)
    (hd : safeQChar d = false) : c ≠ d := by
  intro he
  rw [he, hd] at h
  exact Bool.noConfusion h

theorem contains_eq_false_of_forall (l : List Char) (d : Char)
    (h : ∀ c ∈ l, c ≠ d) : l.contains d = false := by
  induction l with
  | nil => rfl
  | cons a as ih =>
      have ha : (d == a) = false := beq_eq_false_iff_ne.mpr (Ne.symm (h a (by simp)))
      simp only [List.contains_cons, ha, Bool.false_or]
      exact ih (fun c hc => h c (by simp [hc]))

/-- Parsing the reconstructed URL `scheme://netloc path ?query` recovers
exactly its components, under the character-class side conditions. -/
theorem urlparseM_recon (sch nl pth q : List Char)
    (hs1 : sch ≠ [])
    (hs2 : ∀ c ∈ sch, isSchemeChar c = true)
    (hsh : isAsciiAlpha (sch.headD ' ') = true)
    (hsl : ∀ c ∈ sch, pyLowerChar c = c)
    (hnl : ∀ c ∈ nl,
      (32 < c.toNat ∧ c.toNat < 128) ∧ isNetlocDelim c = false ∧
        c ≠ '[' ∧ c ≠ ']')
    (hph : pth = [] ∨ pth.headD ' ' = '/')
    (hpc : ∀ c ∈ pth, isUnsafeUrlByte c = false ∧ c ≠ '?' ∧ c ≠ '#' ∧ c ≠ ';')
    (hqc : ∀ c ∈ q, isUnsafeUrlByte c = false ∧ c ≠ '#') :
    urlparseM ⟨sch ++ ':' :: '/' :: '/' ::
        (nl ++ (pth ++ (if q = [] then [] else '?' :: q)))⟩
      = Except.ok ⟨⟨sch⟩, ⟨nl⟩, ⟨pth⟩, "", ⟨q⟩, ""⟩ := by
  obtain ⟨s0, sch', rfl⟩ : ∃ s0 sch', sch = s0 :: sch' := by
    cases sch with
    | nil => exact absurd rfl hs1
    | cons a l => exact ⟨a, l, rfl⟩
  have hqtail : ∀ c ∈ (if q = [] then ([] : List Char) else '?' :: q),
      isUnsafeUrlByte c = false ∧ c ≠ '#' := by
    by_cases hq0 : q = []
    · simp [hq0]
    · simp only [hq0, if_false]
      intro c hc
      rcases List.mem_cons.mp hc with rfl | hc2
      · exact ⟨by decide, by decide⟩
      · exact hqc c hc2
  have hdrop1 : ((s0 :: sch') ++ ':' :: '/' :: '/' ::
      (nl ++ (pth ++ (if q = [] then [] else '?' :: q)))).dropWhile isC0OrSpace
      = (s0 :: sch') ++ ':' :: '/' :: '/' ::
      (nl ++ (pth ++ (if q = [] then [] else '?' :: q))) := by
    have h0 : isC0OrSpace s0 = false :=
      (isSchemeChar_clean s0 (hs2 s0 (by simp))).1
    simp [List.dropWhile_cons, h0]
  have hfilter1 : ∀ c ∈ (s0 :: sch') ++ ':' :: '/' :: '/' ::
      (nl ++ (pth ++ (if q = [] then [] else '?' :: q))),
      (!isUnsafeUrlByte c) = true := by
    intro c hc
    rw [Bool.not_eq_true']
    rcases List.mem_append.mp hc with hc1 | hc2
    · exact (isSchemeChar_clean c (hs2 c hc1)).2.1
    · rcases List.mem_cons.mp hc2 with rfl | hc3
      · decide
      · rcases List.mem_cons.mp hc3 with rfl | hc4
        · decide
        · rcases List.mem_cons.mp hc4 with rfl | hc5
          · decide
          · rcases List.mem_append.mp hc5 with hc6 | hc7
            · exact (gt32_clean c ((hnl c hc6).1.1)).2
            · rcases List.mem_append.mp hc7 with hc8 | hc9
              · exact (hpc c hc8).1
              · exact (hqtail c hc9).1
  have hsplitc : splitAtFirstChar ':' ((s0 :: sch') ++ ':' :: '/' :: '/' ::
      (nl ++ (pth ++ (if q = [] then [] else '?' :: q))))
      = some (s0 :: sch', '/' :: '/' ::
          (nl ++ (pth ++ (if q = [] then [] else '?' :: q)))) :=
    splitAtFirstChar_append ':' _ _
      (fun c hc => (isSchemeChar_clean c (hs2 c hc)).2.2)
  have hmap : (s0 :: sch').map pyLowerChar = s0 :: sch' :=
    map_eq_self_of_forall _ _ hsl
  have hall : (s0 :: sch').all isSchemeChar = true :=
    List.all_eq_true.mpr hs2
  have hsh2 : isAsciiAlpha s0 = true := hsh
  have htake : (nl ++ (pth ++ (if q = [] then [] else '?' :: q))).takeWhile
      (fun c => !isNetlocDelim c) = nl := by
    rw [takeWhile_append_of_all _ nl _
      (fun c hc => by rw [Bool.not_eq_true', (hnl c hc).2.1])]
    have h2 : (pth ++ (if q = [] then [] else '?' :: q)).takeWhile
        (fun c => !isNetlocDelim c) = [] := by
      cases pth with
      | nil =>
          by_cases hq0 : q = []
          · simp [hq0]
          · simp [hq0, List.takeWhile_cons, isNetlocDelim]
      | cons p0 pr =>
          have hp0 : p0 = '/' := by
            rcases hph with h | h
            · exact absurd h (by simp)
            · simpa using h
          subst hp0
          simp [List.takeWhile_cons, isNetlocDelim]
    rw [h2, List.append_nil]
  have hdrop2 : (nl ++ (pth ++ (if q = [] then [] else '?' :: q))).dropWhile
      (fun c => !isNetlocDelim c) = pth ++ (if q = [] then [] else '?' :: q) := by
    rw [dropWhile_append_of_all _ nl _
      (fun c hc => by rw [Bool.not_eq_true', (hnl c hc).2.1])]
    cases pth with
    | nil =>
        by_cases hq0 : q = []
        · simp [hq0]
        · simp [hq0, List.dropWhile_cons, isNetlocDelim]
    | cons p0 pr =>
        have hp0 : p0 = '/' := by
          rcases hph with h | h
          · exact absurd h (by simp)
          · simpa using h
        subst hp0
        simp [List.dropWhile_cons, isNetlocDelim]
  have hbr1 : nl.contains '[' = false :=
    contains_eq_false_of_forall nl _ (fun c hc => (hnl c hc).2.2.1)
  have hbr2 : nl.contains ']' = false :=
    contains_eq_false_of_forall nl _ (fun c hc => (hnl c hc).2.2.2)
  have hascii : nl.all (fun c => decide (c.toNat < 128)) = true :=
    List.all_eq_true.mpr (fun c hc => decide_eq_true (hnl c hc).1.2)
  have hfrag : splitAtFirstChar '#'
      (pth ++ (if q = [] then [] else '?' :: q)) = none := by
    apply splitAtFirstChar_none
    intro c hc
    rcases List.mem_append.mp hc with hc1 | hc2
    · exact (hpc c hc1).2.2.1
    · exact (hqtail c hc2).2
  have hsemi : pth.contains ';' = false :=
    contains_eq_false_of_forall pth _ (fun c hc => (hpc c hc).2.2.2)
  have hquery : splitAtFirstChar '?' (pth ++ (if q = [] then [] else '?' :: q))
      = if q = [] then none else some (pth, q) := by
    by_cases hq0 : q = []
    · rw [if_pos hq0, if_pos hq0, List.append_nil]
      exact splitAtFirstChar_none '?' pth (fun c hc => (hpc c hc).2.1)
    · rw [if_neg hq0, if_neg hq0]
      exact splitAtFirstChar_append '?' pth q (fun c hc => (hpc c hc).2.1)
  unfold urlparseM
  simp only [hdrop1, List.filter_eq_self.mpr hfilter1, hsplitc, hsh2, hall, hmap,
    htake, hdrop2, hbr1, hbr2, hascii, hfrag, hquery, hsemi,
    Bool.and_self, Bool.and_false, Bool.and_true, Bool.true_and,
    bne_self_eq_false, Bool.not_true, eq_self_iff_true, if_true, if_false,
    Bool.false_eq_true]
  have hsemi2 : ¬ (';' ∈ pth) := fun hm => (hpc ';' hm).2.2.2 rfl
  by_cases hq0 : q = []
  · subst hq0
    simp [hsemi2]
  · simp [hq0, hsemi2]

theorem utf8EncodeChar_ascii (c : Char) (h : c.toNat < 128) :
    utf8EncodeChar c = [c.toNat] := by
  unfold utf8EncodeChar
  rw [if_pos (by omega : c.toNat < 0x80)]

theorem encode_flatten_ascii (l : List Char) (h : ∀ c ∈ l, c.toNat < 128) :
    (l.map utf8EncodeChar).flatten = l.map Char.toNat := by
  induction l with
  | nil => rfl
  | cons a as ih =>
      simp only [List.map_cons, List.flatten_cons,
        utf8EncodeChar_ascii a (h a (by simp))]
      rw [ih (fun c hc => h c (by simp [hc]))]
      rfl

theorem utf8Decode_map_toNat (l : List Char) (h : ∀ c ∈ l, c.toNat < 128) :
    utf8Decode (l.map Char.toNat) = l := by
  induction l with
  | nil => rfl
  | cons a as ih =>
      have ha : a.toNat < 0x80 := by have := h a (by simp); omega
      have ih2 := ih (fun c hc => h c (by simp [hc]))
      rw [List.map_cons, utf8Decode.eq_def]
      simp only [ha, if_true, Char.ofNat_toNat, ih2]

theorem stringMk_data (s : String) : (⟨s.data⟩ : String) = s := rfl

theorem data_ne_nil (s : String) (h : s ≠ "") : s.data ≠ [] := by
  intro hd
  exact h (by rw [← stringMk_data s, hd])

theorem quotePy_safe_id (s : String) (h : ∀ c ∈ s.data, safeQChar c = true) :
    quotePy s [] = s := by
  unfold quotePy
  by_cases h0 : s = ""
  · rw [if_pos h0]
  · rw [if_neg h0]
    have hascii : ∀ c ∈ s.data, c.toNat < 128 :=
      fun c hc => (safeQChar_facts c (h c hc)).2
    rw [encode_flatten_ascii s.data hascii]
    have hall : (s.data.map Char.toNat).all
        (fun b => alwaysSafeByte b || ([] : List Nat).contains b) = true := by
      rw [List.all_eq_true]
      intro b hb
      obtain ⟨c, hc, rfl⟩ := List.mem_map.mp hb
      have := h c hc
      simp only [safeQChar] at this
      simp [this]
    rw [if_pos hall, utf8Decode_map_toNat s.data hascii, stringMk_data]

theorem quotePlus_safe_id (s : String) (h : ∀ c ∈ s.data, safeQChar c = true) :
    quotePlus s = s := by
  unfold quotePlus
  have hsp : s.data.contains ' ' = false :=
    contains_eq_false_of_forall _ _
      (fun c hc => safeQChar_ne c (h c hc) ' ' (by decide))
  rw [hsp]
  simp only [Bool.not_false, if_true]
  exact quotePy_safe_id s h

theorem splitOnCharAux_no_sep (sep : Char) (buf l : List Char)
    (h : ∀ c ∈ l, c ≠ sep) : splitOnCharAux sep buf l = [⟨buf ++ l⟩] := by
  induction l generalizing buf with
  | nil => simp [splitOnCharAux]
  | cons a as ih =>
      simp only [splitOnCharAux, h a (by simp), if_false]
      rw [ih (buf ++ [a]) (fun c hc => h c (by simp [hc]))]
      simp

theorem splitOnCharAux_sep_append (sep : Char) (buf l₁ l₂ : List Char)
    (h : ∀ c ∈ l₁, c ≠ sep) :
    splitOnCharAux sep buf (l₁ ++ sep :: l₂)
      = ⟨buf ++ l₁⟩ :: splitOnCharAux sep [] l₂ := by
  induction l₁ generalizing buf with
  | nil => simp [splitOnCharAux]
  | cons a as ih =>
      simp only [List.cons_append, splitOnCharAux, h a (by simp), if_false]
      rw [show (as.append (sep :: l₂)) = as ++ sep :: l₂ from rfl,
        ih (buf ++ [a]) (fun c hc => h c (by simp [hc]))]
      simp

theorem joinAmp_parse (chunks : List String) (hne : chunks ≠ [])
    (h : ∀ ch ∈ chunks, ∀ c ∈ (ch : String).data, c ≠ '&') :
    splitOnCharAux '&' [] (joinAmp chunks) = chunks := by
  induction chunks with
  | nil => exact absurd rfl hne
  | cons ch rest ih =>
      cases rest with
      | nil =>
          show splitOnCharAux '&' [] (joinAmp [ch]) = [ch]
          rw [show joinAmp [ch] = ch.data from rfl,
            splitOnCharAux_no_sep '&' [] ch.data (h ch (by simp))]
          simp [stringMk_data]
      | cons r rs =>
          show splitOnCharAux '&' [] (ch.data ++ '&' :: joinAmp (r :: rs))
            = ch :: r :: rs
          rw [splitOnCharAux_sep_append '&' [] ch.data _ (h ch (by simp))]
          rw [ih (by simp) (fun x hx c hc => h x (by simp [hx]) c hc)]
          simp [stringMk_data]

theorem qslStep_pair (k v : String)
    (hk : ∀ c ∈ k.data, safeQChar c = true)
    (hv : ∀ c ∈ v.data, safeQChar c = true)
    (hvne : v ≠ "") (acc : List (String × String)) :
    qslStep (k.data ++ '=' :: v.data) acc = (k, v) :: acc := by
  unfold qslStep
  have hne : (k.data ++ '=' :: v.data).isEmpty = false := by
    cases k.data <;> rfl
  rw [hne]
  simp only [Bool.false_eq_true, if_false]
  rw [splitAtFirstChar_append '='  k.data v.data
    (fun c hc => safeQChar_ne c (hk c hc) '=' (by decide))]
  have hvn : v.data.isEmpty = false := by
    have := data_ne_nil v hvne
    cases hd : v.data with
    | nil => exact absurd hd this
    | cons a l => rfl
  simp only [hvn, Bool.false_eq_true, if_false]
  have hmapk : k.data.map plusSp = k.data :=
    map_eq_self_of_forall _ _ (fun c hc => by
      unfold plusSp
      rw [if_neg (safeQChar_ne c (hk c hc) '+' (by decide))])
  have hmapv : v.data.map plusSp = v.data :=
    map_eq_self_of_forall _ _ (fun c hc => by
      unfold plusSp
      rw [if_neg (safeQChar_ne c (hv c hc) '+' (by decide))])
  rw [hmapk, hmapv]
  have huk : unquotePy k.data = k.data := by
    unfold unquotePy
    rw [contains_eq_false_of_forall _ _
      (fun c hc => safeQChar_ne c (hk c hc) '%' (by decide))]
    rfl
  have huv : unquotePy v.data = v.data := by
    unfold unquotePy
    rw [contains_eq_false_of_forall _ _
      (fun c hc => safeQChar_ne c (hv c hc) '%' (by decide))]
    rfl
  rw [huk, huv, stringMk_data, stringMk_data]

theorem chunk_data (kv : String × String) :
    ((kv.1 ++ "=" ++ kv.2 : String)).data = kv.1.data ++ '=' :: kv.2.data := by
  rw [String.data_append, String.data_append]
  simp

theorem joinAmp_cons_ne (c : String) (rest : List String) (hc : c.data ≠ []) :
    (joinAmp (c :: rest)).isEmpty = false := by
  cases rest with
  | nil =>
      show c.data.isEmpty = false
      cases hd : c.data with
      | nil => exact absurd hd hc
      | cons a l => rfl
  | cons r rs =>
      show (c.data ++ '&' :: joinAmp (r :: rs)).isEmpty = false
      cases c.data <;> rfl

theorem foldr_qslStep (qp : List (String × String))
    (hqp : ∀ kv ∈ qp, (∀ c ∈ (kv.1 : String).data, safeQChar c = true) ∧
      (∀ c ∈ (kv.2 : String).data, safeQChar c = true) ∧ kv.2 ≠ "") :
    ((qp.map (fun kv => kv.1 ++ "=" ++ kv.2)).map String.data).foldr qslStep []
      = qp := by
  induction qp with
  | nil => rfl
  | cons kv rest ih =>
      simp only [List.map_cons, List.foldr_cons]
      rw [ih (fun x hx => hqp x (by simp [hx])), chunk_data kv,
        qslStep_pair kv.1 kv.2 (hqp kv (by simp)).1 (hqp kv (by simp)).2.1
          (hqp kv (by simp)).2.2]

/-- Safe query pairs survive `urlencode` → `parse_qsl` unchanged. -/
theorem parse_qsl_urlencode (qp : List (String × String)) (hne : qp ≠ [])
    (hqp : ∀ kv ∈ qp, (∀ c ∈ (kv.1 : String).data, safeQChar c = true) ∧
      (∀ c ∈ (kv.2 : String).data, safeQChar c = true) ∧ kv.2 ≠ "") :
    parse_qsl (urlencodePairs qp).data = qp := by
  obtain ⟨kv0, rest0, rfl⟩ : ∃ kv0 rest0, qp = kv0 :: rest0 := by
    cases qp with
    | nil => exact absurd rfl hne
    | cons a l => exact ⟨a, l, rfl⟩
  have hchunks : (kv0 :: rest0).map (fun kv => quotePlus kv.1 ++ "=" ++ quotePlus kv.2)
      = (kv0 :: rest0).map (fun kv => kv.1 ++ "=" ++ kv.2) := by
    apply List.map_congr_left
    intro kv hkv
    rw [quotePlus_safe_id kv.1 (hqp kv hkv).1,
      quotePlus_safe_id kv.2 (hqp kv hkv).2.1]
  unfold urlencodePairs parse_qsl
  rw [show (⟨joinAmp ((kv0 :: rest0).map
      (fun kv => quotePlus kv.1 ++ "=" ++ quotePlus kv.2))⟩ : String).data
      = joinAmp ((kv0 :: rest0).map
        (fun kv => quotePlus kv.1 ++ "=" ++ quotePlus kv.2)) from rfl]
  rw [hchunks]
  have hne1 : ((kv0.1 ++ "=" ++ kv0.2 : String)).data ≠ [] := by
    rw [chunk_data kv0]
    cases kv0.1.data <;> simp
  have hjoin : (joinAmp (List.map (fun kv => kv.1 ++ "=" ++ kv.2)
      (kv0 :: rest0))).isEmpty = false := by
    rw [List.map_cons]
    exact joinAmp_cons_ne _ _ hne1
  rw [hjoin]
  simp only [Bool.false_eq_true, if_false]
  rw [joinAmp_parse _ (by simp)
    (by
      intro ch hch c hc
      obtain ⟨kv, hkv, rfl⟩ := List.mem_map.mp hch
      rw [chunk_data kv] at hc
      rcases List.mem_append.mp hc with h1 | h2
      · exact safeQChar_ne c ((hqp kv hkv).1 c h1) '&' (by decide)
      · rcases List.mem_cons.mp h2 with rfl | h3
        · decide
        · exact safeQChar_ne c ((hqp kv hkv).2.1 c h3) '&' (by decide))]
  exact foldr_qslStep (kv0 :: rest0) hqp

theorem groupInsert_notmem (name value : String)
    (acc : List (String × List String)) (h : name ∉ acc.map Prod.fst) :
    groupInsert name value acc = acc ++ [(name, [value])] := by
  induction acc with
  | nil => rfl
  | cons kg rest ih =>
      obtain ⟨k, vs⟩ := kg
      have hne : ¬ (k = name) := fun he => h (by simp [he])
      unfold groupInsert
      rw [if_neg hne, ih (fun hm => h (by simp; right; simpa using hm))]
      simp

theorem foldl_groupInsert (qp : List (String × String)) :
    ∀ acc : List (String × List String),
    (qp.map Prod.fst).Nodup →
    (∀ kv ∈ qp, kv.1 ∉ acc.map Prod.fst) →
    qp.foldl (fun acc kv => groupInsert kv.1 kv.2 acc) acc
      = acc ++ qp.map (fun kv => (kv.1, [kv.2])) := by
  induction qp with
  | nil => intro acc _ _; simp
  | cons kv rest ih =>
      intro acc hd hacc
      rw [List.foldl_cons, groupInsert_notmem kv.1 kv.2 acc (hacc kv (by simp))]
      have hd2 : (rest.map Prod.fst).Nodup := by
        rw [List.map_cons] at hd
        exact hd.of_cons
      have hhead : kv.1 ∉ rest.map Prod.fst := by
        rw [List.map_cons] at hd
        exact (List.nodup_cons.mp hd).1
      rw [ih (acc ++ [(kv.1, [kv.2])]) hd2 ?_]
      · simp
      · intro x hx
        rw [List.map_append]
        intro hm
        rcases List.mem_append.mp hm with h1 | h2
        · exact hacc x (by simp [hx]) h1
        · have : x.1 = kv.1 := by simpa using h2
          exact hhead (this ▸ List.mem_map_of_mem Prod.fst hx)

/-- With pairwise-distinct names, `parse_qs` grouping is one singleton
group per pair. -/
theorem parse_qs_of_qsl (qs : List Char)
    (hd : ((parse_qsl qs).map Prod.fst).Nodup) :
    parse_qs qs = (parse_qsl qs).map (fun kv => (kv.1, [kv.2])) := by
  unfold parse_qs
  rw [foldl_groupInsert (parse_qsl qs) [] hd (by simp)]
  rfl

theorem gt32_not_pySpace (c : Char) (h : 32 < c.toNat) : pySpace c = false := by
  unfold pySpace
  have h1 : (decide (c.toNat = 32)) = false := decide_eq_false (by omega)
  have h2 : (decide (c.toNat = 9)) = false := decide_eq_false (by omega)
  have h3 : (decide (c.toNat = 10)) = false := decide_eq_false (by omega)
  have h4 : (decide (c.toNat = 13)) = false := decide_eq_false (by omega)
  have h5 : (decide (c.toNat = 11)) = false := decide_eq_false (by omega)
  have h6 : (decide (c.toNat = 12)) = false := decide_eq_false (by omega)
  rw [h1, h2, h3, h4, h5, h6]
  rfl

theorem pyStrip_safe (v : String) (h : ∀ c ∈ v.data, safeQChar c = true) :
    pyStrip v = v := by
  unfold pyStrip pyStripChars
  have hs : ∀ c ∈ v.data, pySpace c = false :=
    fun c hc => gt32_not_pySpace c (safeQChar_facts c (h c hc)).1
  rw [dropWhile_eq_self_of_all _ _ hs,
    dropWhile_eq_self_of_all _ _ (fun c hc => hs c (List.mem_reverse.mp hc)),
    List.reverse_reverse, stringMk_data]

theorem ftfStep_singleton (acc : List (String × String)) (k v : String)
    (htr : trackingParams.contains ⟨k.data.map pyLowerChar⟩ = false)
    (hv : (pyStrip v).isEmpty = false) :
    ftfStep acc (k, [v]) = acc ++ [(k, v)] := by
  unfold ftfStep
  rw [htr]
  simp only [Bool.false_eq_true, if_false, List.filter_cons, hv,
    Bool.not_false, if_true, List.filter_nil]
  rfl

theorem foldl_ftfStep (qp : List (String × String)) :
    ∀ acc : List (String × String),
    (∀ kv ∈ qp,
      trackingParams.contains ⟨(kv.1 : String).data.map pyLowerChar⟩ = false ∧
      (pyStrip kv.2).isEmpty = false) →
    (qp.map (fun kv => (kv.1, [kv.2]))).foldl ftfStep acc = acc ++ qp := by
  induction qp with
  | nil => intro acc _; simp
  | cons kv rest ih =>
      intro acc h
      rw [List.map_cons, List.foldl_cons,
        ftfStep_singleton acc kv.1 kv.2 (h kv (by simp)).1 (h kv (by simp)).2,
        ih (acc ++ [(kv.1, kv.2)]) (fun x hx => h x (by simp [hx]))]
      simp

theorem charListLt_irrefl (l : List Char) : charListLt l l = false := by
  induction l with
  | nil => rfl
  | cons a as ih =>
      unfold charListLt
      rw [if_neg (lt_irrefl a.toNat), if_neg (lt_irrefl a.toNat)]
      exact ih

theorem pairLtPy_irrefl (x : String × String) : pairLtPy x x = false := by
  unfold pairLtPy
  rw [charListLt_irrefl, charListLt_irrefl]
  simp

theorem pairsSorted_tail (x : String × String) (l : List (String × String))
    (h : pairsSorted (x :: l) = true) : pairsSorted l = true := by
  cases l with
  | nil => rfl
  | cons y ys =>
      have : pairsSorted (x :: y :: ys)
          = ((pairLtPy x y || x == y) && pairsSorted (y :: ys)) := rfl
      rw [this] at h
      exact ((Bool.and_eq_true _ _).mp h).2

theorem insertPair_le (x : String × String) (l : List (String × String))
    (hsorted : pairsSorted l = true)
    (hle : ∀ y, l.head? = some y → (pairLtPy x y || x == y) = true) :
    insertPair x l = x :: l := by
  induction l with
  | nil => rfl
  | cons y ys ih =>
      rcases (Bool.or_eq_true _ _).mp (hle y rfl) with hlt | heq
      · unfold insertPair
        rw [if_pos hlt]
      · have hxy : x = y := eq_of_beq heq
        subst hxy
        unfold insertPair
        rw [if_neg (by rw [pairLtPy_irrefl]; exact Bool.false_ne_true)]
        rw [ih (pairsSorted_tail x ys hsorted) ?_]
        intro z hz
        cases ys with
        | nil => exact absurd hz (by simp)
        | cons w ws =>
            have hw : w = z := by simpa using hz
            have heq2 : pairsSorted (x :: w :: ws)
                = ((pairLtPy x w || x == w) && pairsSorted (w :: ws)) := rfl
            rw [heq2] at hsorted
            rw [← hw]
            exact ((Bool.and_eq_true _ _).mp hsorted).1

theorem sortPairs_sorted_id (l : List (String × String))
    (h : pairsSorted l = true) : sortPairs l = l := by
  induction l with
  | nil => rfl
  | cons x xs ih =>
      show insertPair x (sortPairs xs) = x :: xs
      rw [ih (pairsSorted_tail x xs h)]
      apply insertPair_le x xs (pairsSorted_tail x xs h)
      intro y hy
      cases xs with
      | nil => exact absurd hy (by simp)
      | cons w ws =>
          have hw : w = y := by simpa using hy
          have heq2 : pairsSorted (x :: w :: ws)
              = ((pairLtPy x w || x == w) && pairsSorted (w :: ws)) := rfl
          rw [heq2] at h
          rw [← hw]
          exact ((Bool.and_eq_true _ _).mp h).1

theorem string_eq_of_data (s t : String) (h : s.data = t.data) : s = t := by
  rw [← stringMk_data s, ← stringMk_data t, h]

theorem joinAmp_chars (chunks : List String) (p : Char → Prop) (hsep : p '&')
    (h : ∀ ch ∈ chunks, ∀ c ∈ (ch : String).data, p c) :
    ∀ c ∈ joinAmp chunks, p c := by
  induction chunks with
  | nil => intro c hc; exact absurd hc (by simp [joinAmp])
  | cons ch rest ih =>
      cases rest with
      | nil =>
          intro c hc
          exact h ch (by simp) c hc
      | cons r rs =>
          intro c hc
          rw [show joinAmp (ch :: r :: rs) = ch.data ++ '&' :: joinAmp (r :: rs)
            from rfl] at hc
          rcases List.mem_append.mp hc with h1 | h2
          · exact h ch (by simp) c h1
          · rcases List.mem_cons.mp h2 with rfl | h3
            · exact hsep
            · exact ih (fun x hx => h x (by simp [hx])) c h3

theorem reconUrl_eq (c : NormComponents) :
    reconUrl c = ⟨c.scheme ++ ':' :: '/' :: '/' :: (c.netloc ++ (c.path ++
      (if c.pairs.isEmpty then []
       else '?' :: (urlencodePairs c.pairs).data)))⟩ := by
  apply string_eq_of_data
  unfold reconUrl
  by_cases hp : c.pairs.isEmpty
  · rw [if_pos hp, if_pos hp]
    simp [String.data_append, List.append_assoc]
  · rw [if_neg hp, if_neg hp]
    simp [String.data_append, List.append_assoc]

/-- A component vector satisfying the normal-form side conditions is a
fixed point of the component normalization. -/
theorem normComponents_fixed (c : NormComponents) (qstr : String)
    (hsl : ∀ ch ∈ c.scheme, pyLowerChar ch = ch)
    (hnl : ∀ ch ∈ c.netloc, pyLowerChar ch = ch)
    (hnw : "www.".data.isPrefixOf c.netloc = false)
    (hn443 : listContainsSub ":443".data c.netloc = false)
    (hn80 : listContainsSub ":80".data c.netloc = false)
    (hpt : c.path = ['/'] ∨ c.path.getLast? ≠ some '/')
    (hqp : queryPairs qstr = c.pairs) :
    normComponents ⟨⟨c.scheme⟩, ⟨c.netloc⟩, ⟨c.path⟩, "", qstr, ""⟩ = c := by
  unfold normComponents
  simp only [show (⟨c.scheme⟩ : String).data = c.scheme from rfl,
    show (⟨c.netloc⟩ : String).data = c.netloc from rfl,
    show (⟨c.path⟩ : String).data = c.path from rfl,
    map_eq_self_of_forall _ _ hsl, map_eq_self_of_forall _ _ hnl,
    hnw, Bool.false_eq_true, if_false, hn443, hn80, Bool.and_false, hqp]
  have hpath : ¬ (c.path ≠ ['/'] ∧ c.path.getLast? = some '/') := by
    rcases hpt with h1 | h1
    · intro hcon; exact hcon.1 h1
    · intro hcon; exact h1 hcon.2
  rw [if_neg hpath]

/-- C7 (amended): `normalize_url` is not idempotent in general, but it is
idempotent on every URL satisfying the decidable well-formedness
condition `NormCond` (parseable absolute `scheme://netloc` URL whose
normalized components carry no residual `www.`/default-port/trailing-slash
/last-segment-`;` issues and whose query pairs are sorted, distinct and
unreserved). -/
theorem normalize_url_idempotent (u : String) (h : NormCond u) :
    normalize_url (normalize_url u) = normalize_url u := by
  unfold NormCond at h
  rcases hu : urlparseM u with e | p
  · rw [hu] at h
    exact False.elim h
  · rw [hu] at h
    have hc : CondOnParse p := h
    unfold CondOnParse at hc
    obtain ⟨⟨hs1, hsh, hs2, hsl⟩, ⟨hn1, hnc, hnl, hnw, hn443, hn80⟩,
      ⟨hph, hpc, hpt⟩, hq, hqs, hqd⟩ := hc
    set c := normComponents p with hcdef
    have hv : normalize_url u = reconUrl c := by
      unfold normalize_url
      rw [hu]
    have hqp : ∀ kv ∈ c.pairs,
        (∀ ch ∈ (kv.1 : String).data, safeQChar ch = true) ∧
        (∀ ch ∈ (kv.2 : String).data, safeQChar ch = true) ∧ kv.2 ≠ "" :=
      fun kv hkv => ⟨(hq kv hkv).1, (hq kv hkv).2.1, (hq kv hkv).2.2.1⟩
    rw [hv]
    unfold normalize_url
    by_cases hpe : c.pairs.isEmpty
    · -- no query survives: the reconstruction has no `?` part
      have hce : c.pairs = [] := by
        cases hx : c.pairs with
        | nil => rfl
        | cons a l => rw [hx] at hpe; exact absurd hpe (by simp)
      have hrc : reconUrl c = ⟨c.scheme ++ ':' :: '/' :: '/' ::
          (c.netloc ++ (c.path ++ []))⟩ := by
        rw [reconUrl_eq c, if_pos hpe]
      have hparse : urlparseM (reconUrl c)
          = Except.ok ⟨⟨c.scheme⟩, ⟨c.netloc⟩, ⟨c.path⟩, "", "", ""⟩ := by
        rw [hrc]
        have hr := urlparseM_recon c.scheme c.netloc c.path []
          hs1 hs2 hsh hsl hnc hph hpc (by simp)
        simpa using hr
      rw [hparse]
      show reconUrl (normComponents ⟨⟨c.scheme⟩, ⟨c.netloc⟩, ⟨c.path⟩, "", "", ""⟩)
        = reconUrl c
      rw [normComponents_fixed c "" hsl hnl hnw hn443 hn80 hpt
        (by rw [show queryPairs "" = [] from rfl, hce])]
    · -- the query part round-trips
      obtain ⟨kv0, rest0, hcp⟩ : ∃ kv0 rest0, c.pairs = kv0 :: rest0 := by
        cases hx : c.pairs with
        | nil => rw [hx] at hpe; exact absurd rfl hpe
        | cons a l => exact ⟨a, l, rfl⟩
      have hchunks : c.pairs.map (fun kv => quotePlus kv.1 ++ "=" ++ quotePlus kv.2)
          = c.pairs.map (fun kv => kv.1 ++ "=" ++ kv.2) := by
        apply List.map_congr_left
        intro kv hkv
        rw [quotePlus_safe_id kv.1 (hqp kv hkv).1,
          quotePlus_safe_id kv.2 (hqp kv hkv).2.1]
      have hencdata : (urlencodePairs c.pairs).data
          = joinAmp (c.pairs.map (fun kv => kv.1 ++ "=" ++ kv.2)) := by
        unfold urlencodePairs
        rw [hchunks]
      have henc_ne : (urlencodePairs c.pairs).data ≠ [] := by
        rw [hencdata, hcp]
        simp only [List.map_cons]
        intro hnil
        have hje := joinAmp_cons_ne (kv0.1 ++ "=" ++ kv0.2)
          (rest0.map (fun kv => kv.1 ++ "=" ++ kv.2))
          (by rw [chunk_data kv0]; cases kv0.1.data <;> simp)
        rw [hnil] at hje
        exact Bool.noConfusion hje
      have hqchars : ∀ ch ∈ (urlencodePairs c.pairs).data,
          isUnsafeUrlByte ch = false ∧ ch ≠ '#' := by
        rw [hencdata]
        refine joinAmp_chars _ (fun ch => isUnsafeUrlByte ch = false ∧ ch ≠ '#')
          ⟨by decide, by decide⟩ ?_
        intro chq hch ch hcc
        obtain ⟨kv, hkv, rfl⟩ := List.mem_map.mp hch
        rw [chunk_data kv] at hcc
        rcases List.mem_append.mp hcc with h1 | h2
        · have hsafe := (hqp kv hkv).1 ch h1
          exact ⟨(gt32_clean ch (safeQChar_facts ch hsafe).1).2,
            safeQChar_ne ch hsafe '#' (by decide)⟩
        · rcases List.mem_cons.mp h2 with rfl | h3
          · exact ⟨by decide, by decide⟩
          · have hsafe := (hqp kv hkv).2.1 ch h3
            exact ⟨(gt32_clean ch (safeQChar_facts ch hsafe).1).2,
              safeQChar_ne ch hsafe '#' (by decide)⟩
      have hrc : reconUrl c = ⟨c.scheme ++ ':' :: '/' :: '/' ::
          (c.netloc ++ (c.path ++ '?' :: (urlencodePairs c.pairs).data))⟩ := by
        rw [reconUrl_eq c, if_neg hpe]
      have hparse : urlparseM (reconUrl c)
          = Except.ok ⟨⟨c.scheme⟩, ⟨c.netloc⟩, ⟨c.path⟩, "",
              ⟨(urlencodePairs c.pairs).data⟩, ""⟩ := by
        rw [hrc]
        have hr := urlparseM_recon c.scheme c.netloc c.path
          (urlencodePairs c.pairs).data
          hs1 hs2 hsh hsl hnc hph hpc hqchars
        rw [if_neg henc_ne] at hr
        exact hr
      rw [hparse]
      show reconUrl (normComponents ⟨⟨c.scheme⟩, ⟨c.netloc⟩, ⟨c.path⟩, "",
        ⟨(urlencodePairs c.pairs).data⟩, ""⟩) = reconUrl c
      have hqsl : parse_qsl (urlencodePairs c.pairs).data = c.pairs :=
        parse_qsl_urlencode c.pairs (by rw [hcp]; simp) hqp
      have hquery : queryPairs ⟨(urlencodePairs c.pairs).data⟩ = c.pairs := by
        rw [stringMk_data]
        unfold queryPairs
        rw [if_neg (by
          intro hx
          exact henc_ne (by rw [hx]))]
        rw [parse_qs_of_qsl _ (by rw [hqsl]; exact hqd), hqsl]
        unfold filterTrackingFlatten
        rw [foldl_ftfStep c.pairs [] (fun kv hkv => ⟨(hq kv hkv).2.2.2, by
          rw [pyStrip_safe kv.2 (hqp kv hkv).2.1]
          cases hbe : kv.2.isEmpty with
          | false => rfl
          | true => exact absurd ((String.isEmpty_iff kv.2).mp (by rw [hbe])) (hqp kv hkv).2.2⟩)]
        rw [List.nil_append]
        exact sortPairs_sorted_id c.pairs hqs
      rw [normComponents_fixed c ⟨(urlencodePairs c.pairs).data⟩
        hsl hnl hnw hn443 hn80 hpt hquery]

/-- Witness for C7 at a concrete well-formed URL whose query pairs get
reordered by the first pass. -/
theorem normalize_url_idempotent_witness :
    NormCond "http://example.com/a?b=1&a=2" ∧
    normalize_url (normalize_url "http://example.com/a?b=1&a=2")
      = normalize_url "http://example.com/a?b=1&a=2" :=
  ⟨by decide,
   normalize_url_idempotent "http://example.com/a?b=1&a=2" (by decide)⟩

/-- C7 counterexample: URL normalization is not idempotent.  A double
trailing slash loses one slash per pass: normalizing
`http://example.com/a//` yields `http://example.com/a/`, and normalizing
that yields `http://example.com/a` — so the second application changes
the result of the first. -/
theorem normalize_url_not_idempotent :
    normalize_url "http://example.com/a//" = "http://example.com/a/" ∧
    normalize_url "http://example.com/a/" = "http://example.com/a" ∧
    normalize_url (normalize_url "http://example.com/a//")
      ≠ normalize_url "http://example.com/a//" := by
  refine ⟨rfl, rfl, ?_⟩
  decide

/-- Witness for C3's amended theorem at a concrete failing fetch. -/
theorem no_prefix_path_fetch_behavior_witness :
    process_url_queue_item noPrefixFailEnv noPrefixItem =
      { status := "error", savedUrls := [], savedPrefixes := [],
        urlQueuePushes := [], prefixQueuePushes := [] } ∧
    (process_url_queue_item
        ⟨100, ⟨[], []⟩, fetchOk, extractTrivial, noOutlinks⟩ noPrefixItem).status
      = "requeued" :=
  ⟨(no_prefix_path_fetch_behavior noPrefixFailEnv noPrefixItem (by decide) (by rfl)).1
      "HTTP 500" rfl,
   ((no_prefix_path_fetch_behavior
        ⟨100, ⟨[], []⟩, fetchOk, extractTrivial, noOutlinks⟩ noPrefixItem
        (by decide) (by rfl)).2
      "<html><body></body></html>" rfl).1⟩

/-- C8: a prefix stored as `failed`, once dequeued again by the synthesis
worker, is first saved with status `None` and then with status
`in_progress` before synthesis begins — it never stays `failed` after
being dequeued (the job is not skipped). -/
theorem failed_prefix_recovery (store : Store)
    (gen : URLPrefix → Except String ParserConfig) (up existing : URLPrefix)
    (hload : loadPrefix store up.prefix_str = some existing)
    (hfail : existing.processing_status = some "failed") :
    ∃ rest,
      (process_url_prefix_job store gen up).saves =
        { existing with processing_status := none } ::
          { existing with processing_status := some "in_progress" } :: rest ∧
      (process_url_prefix_job store gen up).status ≠ "skipped" := by
  have hjob : process_url_prefix_job store gen up
      = runSynthJob gen { existing with processing_status := none }
          [{ existing with processing_status := none }] := by
    unfold process_url_prefix_job
    simp [hload, hfail]
  rw [hjob]
  cases hgen : gen { existing with processing_status := some "in_progress" } with
  | ok cfg =>
      refine ⟨[{ existing with
        processing_status := some "completed", parser_config := some cfg }], ?_, ?_⟩ <;>
        simp [runSynthJob, hgen]
  | error e =>
      refine ⟨[{ existing with processing_status := some "failed" }], ?_, ?_⟩ <;>
        simp [runSynthJob, hgen]

/-- Witness for C8 at a concrete store and an always-succeeding
generator. -/
theorem failed_prefix_recovery_witness :
    ∃ rest,
      (process_url_prefix_job synthFailedStore genOkOracle synthDequeued).saves =
        { synthFailedPrefix with processing_status := none } ::
          { synthFailedPrefix with processing_status := some "in_progress" } :: rest ∧
      (process_url_prefix_job synthFailedStore genOkOracle synthDequeued).status
        ≠ "skipped" :=
  failed_prefix_recovery synthFailedStore genOkOracle synthDequeued
    synthFailedPrefix rfl rfl

/-- The overflow phrase contains itself. -/
theorem strContainsSub_overflow_self :
    strContainsSub contextOverflowMsg contextOverflowMsg = true := by rfl

/-- Context overflow at every attempt size exhausts the counter: the loop
raises `Failed to generate parser`. -/
theorem generateParserLoop_all_overflow (env : GenEnv) (samples : List SampleURL)
    (prefixName : String)
    (h : ∀ n, env.provider (samples.take n) = Except.error contextOverflowMsg) :
    ∀ k, generateParserLoop env samples prefixName k
      = Except.error "Failed to generate parser" := by
  intro k
  induction k with
  | zero => rfl
  | succ n ih =>
      unfold generateParserLoop genAttempt
      rw [h]
      simpa [strContainsSub_overflow_self] using ih

/-- C4: starting at `n = 5` samples, provider overflow at sizes 5, 4, 3
with success at size 2 yields (with passing validation and no reflection
prompt) the config the provider produced from exactly the first two
samples, with no exception; and overflow at every size exhausts the
counter and raises. -/
theorem adaptive_degradation :
    (∀ (env : GenEnv) (up : URLPrefix) (params : ParserParameters),
      up.sample_urls.length = 5 →
      env.provider (up.sample_urls.take 5) = Except.error contextOverflowMsg →
      env.provider (up.sample_urls.take 4) = Except.error contextOverflowMsg →
      env.provider (up.sample_urls.take 3) = Except.error contextOverflowMsg →
      env.provider (up.sample_urls.take 2) = Except.ok params →
      env.validate ⟨params, up.prefix_str⟩ up.sample_urls = none →
      env.reflection_prompt = none →
      generateParser env up = Except.ok ⟨params, up.prefix_str⟩) ∧
    (∀ (env : GenEnv) (up : URLPrefix),
      (∀ n, env.provider (up.sample_urls.take n) = Except.error contextOverflowMsg) →
      generateParser env up = Except.error "Failed to generate parser") := by
  constructor
  · intro env up params hlen h5 h4 h3 h2 hval hrefl
    have step : ∀ m, env.provider (up.sample_urls.take (m + 1))
          = Except.error contextOverflowMsg →
        generateParserLoop env up.sample_urls up.prefix_str (m + 1)
          = generateParserLoop env up.sample_urls up.prefix_str m := by
      intro m hm
      simp only [generateParserLoop, genAttempt]
      rw [hm]
      simp [strContainsSub_overflow_self]
    have succOk : generateParserLoop env up.sample_urls up.prefix_str 2
        = Except.ok ⟨params, up.prefix_str⟩ := by
      have h21 : (2 : Nat) = 1 + 1 := rfl
      rw [h21] at h2 ⊢
      simp only [generateParserLoop, genAttempt]
      rw [h2]
      simp [hval]
    have hloop : generateParserLoop env up.sample_urls up.prefix_str 5
        = Except.ok ⟨params, up.prefix_str⟩ := by
      calc generateParserLoop env up.sample_urls up.prefix_str 5
          = generateParserLoop env up.sample_urls up.prefix_str 4 := step 4 h5
        _ = generateParserLoop env up.sample_urls up.prefix_str 3 := step 3 h4
        _ = generateParserLoop env up.sample_urls up.prefix_str 2 := step 2 h3
        _ = Except.ok ⟨params, up.prefix_str⟩ := succOk
    unfold generateParser
    rw [hlen, hloop, hrefl]
  · intro env up h
    unfold generateParser
    rw [generateParserLoop_all_overflow env up.sample_urls up.prefix_str h]

/-- Witness for C4: the concrete provider that overflows except at size 2
produces the size-2 config; the always-overflowing provider raises. -/
theorem adaptive_degradation_witness :
    generateParser degEnv degPrefix = Except.ok ⟨degParams, "https://e.com/a"⟩ ∧
    generateParser degAllOverflowEnv degPrefix
      = Except.error "Failed to generate parser" :=
  ⟨adaptive_degradation.1 degEnv degPrefix degParams rfl rfl rfl rfl rfl rfl rfl,
   adaptive_degradation.2 degAllOverflowEnv degPrefix (fun _ => rfl)⟩

end Crawler
